import Mathlib

/-!
# Verification of the anti2api-golang protocol gateway

Shallow embedding of the OpenAI → Antigravity converter
(`internal/converter/openai.go`, `internal/converter/types.go`), the
UTF-8-buffered stream writer and upstream stream processor (`internal/api`),
and the chat-completion handlers (`internal/server/handlers`), together with
proofs about the embedded definitions.

Conventions:
- Go byte slices and Go strings flowing through the stream writer are
  `List Nat` (byte values); Go strings that are only carried around
  (names, ids, roles) are Lean `String`.
- JSON-object-shaped values (tool arguments, function parameters) are
  abstracted as their marshaled JSON text, since nothing in the verified
  code inspects their structure.
- Effectful identifier generators (`utils.Generate*ID`) and the per-model
  lookup tables that are not part of the provided sources are abstracted
  as explicit parameters.
-/

namespace Anti2Api

/-! ## Data model (internal/converter/types.go, with the thought-signature
fields used by internal/converter/openai.go) -/

/-- Go `converter.FunctionCall`; the `Args map[string]interface{}` field is
abstracted as its JSON text. -/
structure FunctionCall where
  id : String
  name : String
  argsJson : String
deriving DecidableEq

/-- Go `converter.FunctionResponse`; the response map `{"output": …}` built by
`convertMessages` always has the single key `output`, carried here directly. -/
structure FunctionResponse where
  id : String
  name : String
  output : String
deriving DecidableEq

/-- Go `converter.InlineData`. -/
structure InlineData where
  mimeType : String
  data : String
deriving DecidableEq

/-- Go `converter.Part`. -/
structure Part where
  text : String := ""
  functionCall : Option FunctionCall := none
  functionResponse : Option FunctionResponse := none
  inlineData : Option InlineData := none
  thought : Bool := false
  thoughtSignature : String := ""
deriving DecidableEq

/-- Go `converter.Content`. -/
structure Content where
  role : String
  parts : List Part
deriving DecidableEq

/-- Go `converter.OpenAIFunctionCall`. -/
structure OpenAIFunctionCall where
  name : String
  arguments : String
deriving DecidableEq

/-- Go `converter.OpenAIToolCall`. -/
structure OpenAIToolCall where
  id : String
  type : String := "function"
  function : OpenAIFunctionCall
  thoughtSignature : String := ""
deriving DecidableEq

/-- One element of an OpenAI `content` array (`interface{}` in Go): a map
with `type == "text"`, a map with `type == "image_url"` carrying a url
string, or anything else (skipped by the converter). -/
inductive ContentItem where
  | text (s : String)
  | imageUrl (url : String)
  | other
deriving DecidableEq

/-- The Go `interface{}` value of an OpenAI message `content` field:
a plain string, an array of content parts, or any other JSON value. -/
inductive ContentVal where
  | str (s : String)
  | arr (items : List ContentItem)
  | other
deriving DecidableEq

/-- Go `converter.OpenAIMessage` (the unused `Name` field is omitted). -/
structure OpenAIMessage where
  role : String
  content : ContentVal := .str ""
  toolCalls : List OpenAIToolCall := []
  toolCallID : String := ""
deriving DecidableEq

/-- Opaque stand-in for a Go `float64`; sampling parameters are only ever
copied verbatim by the converter, never interpreted. -/
structure FloatVal where
  bits : Nat
deriving DecidableEq

/-- Go `converter.OpenAIFunction`; the `Parameters` JSON-schema map is
abstracted as its JSON text. -/
structure OpenAIFunction where
  name : String
  description : String
  parametersJson : String := ""
deriving DecidableEq

/-- Go `converter.OpenAITool`. -/
structure OpenAITool where
  type : String := "function"
  function : OpenAIFunction
deriving DecidableEq

/-- Go `converter.OpenAIChatRequest`. -/
structure OpenAIChatRequest where
  model : String
  messages : List OpenAIMessage
  stream : Bool := false
  temperature : Option FloatVal := none
  topP : Option FloatVal := none
  maxTokens : Int := 0
  stop : List String := []
  tools : List OpenAITool := []
deriving DecidableEq

/-- Go `converter.ThinkingConfig`. -/
structure ThinkingConfig where
  includeThoughts : Bool
  thinkingBudget : Int := 0
deriving DecidableEq

/-- Go `converter.GenerationConfig` (the unused `TopK` field is omitted). -/
structure GenerationConfig where
  candidateCount : Int := 0
  stopSequences : List String := []
  maxOutputTokens : Int := 0
  temperature : Option FloatVal := none
  topP : Option FloatVal := none
  thinkingConfig : Option ThinkingConfig := none
deriving DecidableEq

/-- Go `converter.FunctionDeclaration`. -/
structure FunctionDeclaration where
  name : String
  description : String
  parametersJson : String := ""
deriving DecidableEq

/-- Go `converter.Tool`. -/
structure Tool where
  functionDeclarations : List FunctionDeclaration
deriving DecidableEq

/-- Go `converter.FunctionCallingConfig` (allowed function names unused). -/
structure FunctionCallingConfig where
  mode : String
deriving DecidableEq

/-- Go `converter.ToolConfig`. -/
structure ToolConfig where
  functionCallingConfig : Option FunctionCallingConfig := none
deriving DecidableEq

/-- Go `converter.SystemInstruction`. -/
structure SystemInstruction where
  parts : List Part
deriving DecidableEq

/-- Go `converter.AntigravityInnerReq`. -/
structure AntigravityInnerReq where
  systemInstruction : Option SystemInstruction := none
  contents : List Content := []
  tools : List Tool := []
  toolConfig : Option ToolConfig := none
  generationConfig : Option GenerationConfig := none
  sessionID : String := ""
deriving DecidableEq

/-- Go `converter.AntigravityRequest`. -/
structure AntigravityRequest where
  project : String
  requestID : String
  request : AntigravityInnerReq
  model : String
  userAgent : String
  requestType : String := ""
deriving DecidableEq

/-- The fields of `store.Account` used by the converter and handlers. -/
structure Account where
  email : String := ""
  projectID : String := ""
  sessionID : String := ""
deriving DecidableEq

/-- Modelled from the spec: the per-model lookup tables and generators
(`ResolveModelName`, `IsClaudeModel`, `GetClaudeMaxOutputTokens`,
`ShouldEnableThinking`, `BuildThinkingConfig`, `DefaultStopSequences`,
`utils.GenerateProjectID`, `utils.GenerateRequestID`, `config.Get().UserAgent`)
live in files of this repository that are not under src/.  The spec only says
that thinking "is enabled per destination model by default" and that one model
family "uses a fixed per-model maximum-output-token ceiling from a lookup
table", so these are abstracted as parameters of the converter. -/
structure ModelEnv where
  resolveModelName : String → String
  isClaudeModel : String → Bool
  getClaudeMaxOutputTokens : String → Int
  shouldEnableThinking : String → Bool
  buildThinkingConfig : String → ThinkingConfig
  defaultStopSequences : List String
  generateProjectID : String
  generateRequestID : String
  userAgent : String

/-! ## Converter (internal/converter/openai.go) -/

/-- Go `hasToolCallsInHistory`: any message with a non-empty `ToolCalls` list or
with role `tool`. -/
def hasToolCallsInHistory (messages : List OpenAIMessage) : Bool :=
  messages.any fun msg => decide (msg.toolCalls.length > 0 ∨ msg.role = "tool")

/-- Go regexp `\w` (re2 without unicode classes): `[0-9A-Za-z_]`. -/
def isWordChar (c : Char) : Bool :=
  c.isAlphanum || c = '_'

/-- Go `parseImageURL`: matches the anchored regexp
`data:image/(\w+);base64,(.+)` where `.` excludes the newline character. -/
def parseImageURL (url : String) : Option InlineData :=
  let cs := url.toList
  if cs.take 11 = "data:image/".toList then
    let rest := cs.drop 11
    let fmt := rest.takeWhile isWordChar
    let rest2 := rest.dropWhile isWordChar
    if fmt ≠ [] ∧ rest2.take 8 = ";base64,".toList then
      let payload := rest2.drop 8
      if payload ≠ [] ∧ payload.all (· ≠ '\n') then
        some { mimeType := "image/" ++ String.mk fmt, data := String.mk payload }
      else none
    else none
  else none

/-- Go `getTextContent`. -/
def getTextContent : ContentVal → String
  | .str s => s
  | .arr items =>
      String.intercalate "\n" (items.filterMap fun it =>
        match it with
        | .text s => some s
        | _ => none)
  | .other => ""

/-- Go `extractParts`. -/
def extractParts : ContentVal → List Part
  | .str s => [{ text := s }]
  | .arr items =>
      items.filterMap fun it =>
        match it with
        | .text s => some { text := s }
        | .imageUrl url => (parseImageURL url).map fun d => { inlineData := some d }
        | .other => none
  | .other => []

/-- Go `parseArgs`: JSON-decodes a tool call's argument string into a map.
JSON parsing is abstracted; the argument object is carried as its JSON
text, which no verified code inspects. -/
def parseArgs (argsStr : String) : String :=
  argsStr

/-- The parts a single assistant message contributes (`convertMessages`,
`assistant` case): non-empty text first, then one function-call part per
tool call, each carrying over its thought signature. -/
def assistantParts (m : OpenAIMessage) : List Part :=
  (if getTextContent m.content ≠ "" then [{ text := getTextContent m.content }] else [])
    ++ m.toolCalls.map fun tc =>
        { functionCall := some
            { id := tc.id, name := tc.function.name, argsJson := parseArgs tc.function.arguments }
          thoughtSignature := tc.thoughtSignature }

/-- The inner test of `findFunctionName`: a part whose function call has the
sought id yields its name. -/
def fcScan (toolCallID : String) (p : Part) : Option String :=
  match p.functionCall with
  | some fc => if fc.id = toolCallID then some fc.name else none
  | none => none

/-- Go `findFunctionName`: scan built turns backwards for a function call with
the given id; default `""`. -/
def findFunctionName (contents : List Content) (toolCallID : String) : String :=
  (contents.reverse.findSome? fun c => c.parts.findSome? (fcScan toolCallID)).getD ""

/-- The function-response part built for one tool message (`convertMessages`,
`tool` case), with the function name looked up in the turns built so far. -/
def toolRespPart (contents : List Content) (m : OpenAIMessage) : Part :=
  { functionResponse := some
      { id := m.toolCallID
        name := findFunctionName contents m.toolCallID
        output := getTextContent m.content } }

/-- Go `appendFunctionResponse`. -/
def appendFunctionResponse (contents : List Content) (part : Part) : List Content :=
  match contents.getLast? with
  | some c =>
      if c.role = "model" then contents ++ [{ role := "user", parts := [part] }]
      else if c.role = "user" then
        contents.dropLast ++ [{ role := c.role, parts := c.parts ++ [part] }]
      else contents ++ [{ role := "user", parts := [part] }]
  | none => contents ++ [{ role := "user", parts := [part] }]

/-- One iteration of the `convertMessages` loop. -/
def stepMsg (acc : List Content) (m : OpenAIMessage) : List Content :=
  if m.role = "system" then acc
  else if m.role = "user" then acc ++ [{ role := "user", parts := extractParts m.content }]
  else if m.role = "assistant" then
    if assistantParts m = [] then acc
    else acc ++ [{ role := "model", parts := assistantParts m }]
  else if m.role = "tool" then appendFunctionResponse acc (toolRespPart acc m)
  else acc

/-- The `convertMessages` loop with explicit accumulator. -/
def convertLoop : List OpenAIMessage → List Content → List Content
  | [], acc => acc
  | m :: ms, acc => convertLoop ms (stepMsg acc m)

/-- Go `convertMessages`. -/
def convertMessages (messages : List OpenAIMessage) : List Content :=
  convertLoop messages []

/-- Go `extractSystemInstruction`: all system texts joined by a blank line. -/
def extractSystemInstruction (messages : List OpenAIMessage) : String :=
  String.intercalate "\n\n"
    ((messages.filter fun m => m.role = "system").map fun m => getTextContent m.content)

/-- Go `convertTools` (the `$schema` key removal inside the abstracted
parameter map is not modelled). -/
def convertTools (tools : List OpenAITool) : List Tool :=
  tools.map fun t =>
    { functionDeclarations :=
        [{ name := t.function.name
           description := t.function.description
           parametersJson := t.function.parametersJson }] }

/-- Go `buildGenerationConfig`. -/
def buildGenerationConfig (env : ModelEnv) (req : OpenAIChatRequest) (modelName : String)
    (hasHistoryFunctionCalls : Bool) : GenerationConfig :=
  let config : GenerationConfig :=
    { candidateCount := 1
      stopSequences :=
        if req.stop ≠ [] then env.defaultStopSequences ++ req.stop
        else env.defaultStopSequences }
  if env.isClaudeModel modelName then
    let config := { config with maxOutputTokens := env.getClaudeMaxOutputTokens modelName }
    if !hasHistoryFunctionCalls && env.shouldEnableThinking modelName then
      { config with thinkingConfig := some (env.buildThinkingConfig modelName) }
    else config
  else
    let config := { config with temperature := req.temperature, topP := req.topP }
    let config :=
      if req.maxTokens > 0 then { config with maxOutputTokens := req.maxTokens } else config
    if !hasHistoryFunctionCalls && env.shouldEnableThinking modelName then
      { config with thinkingConfig := some (env.buildThinkingConfig modelName) }
    else config

/-- Go `getProjectID`. -/
def getProjectID (env : ModelEnv) (account : Account) : String :=
  if account.projectID ≠ "" then account.projectID else env.generateProjectID

/-- Go `ConvertOpenAIToAntigravity`. -/
def ConvertOpenAIToAntigravity (env : ModelEnv) (req : OpenAIChatRequest)
    (account : Account) : AntigravityRequest :=
  let modelName := env.resolveModelName req.model
  let hasHistoryFunctionCalls := hasToolCallsInHistory req.messages
  let contents := convertMessages req.messages
  let systemText := extractSystemInstruction req.messages
  let inner0 : AntigravityInnerReq := { contents := contents, sessionID := account.sessionID }
  let inner1 :=
    if systemText ≠ "" then
      { inner0 with systemInstruction := some { parts := [{ text := systemText }] } }
    else inner0
  let inner2 :=
    if req.tools ≠ [] then
      { inner1 with
          tools := convertTools req.tools
          toolConfig := some { functionCallingConfig := some { mode := "AUTO" } } }
    else inner1
  let inner3 :=
    { inner2 with
        generationConfig := some (buildGenerationConfig env req modelName hasHistoryFunctionCalls) }
  { project := getProjectID env account
    requestID := env.generateRequestID
    request := inner3
    model := modelName
    userAgent := env.userAgent }

/-- The single turn a tool-free message yields: `user` messages one user
turn, `assistant` messages one model turn when they contribute parts,
`system` and unknown roles none. -/
def msgTurn (m : OpenAIMessage) : Option Content :=
  if m.role = "system" then none
  else if m.role = "user" then some { role := "user", parts := extractParts m.content }
  else if m.role = "assistant" then
    if assistantParts m = [] then none
    else some { role := "model", parts := assistantParts m }
  else none

/-! ## UTF-8 handling (internal/api stream writer, `extractValidUTF8`) -/

/-- A UTF-8 continuation byte: `10xxxxxx`. -/
def isCont (b : Nat) : Bool :=
  decide (0x80 ≤ b ∧ b ≤ 0xBF)

/-- Admissible first continuation byte after start byte `b`
(Go `unicode/utf8` acceptance ranges: they exclude overlong encodings,
surrogates and code points above U+10FFFF). -/
def cont1OK (b c1 : Nat) : Bool :=
  if b = 0xE0 then decide (0xA0 ≤ c1 ∧ c1 ≤ 0xBF)
  else if b = 0xED then decide (0x80 ≤ c1 ∧ c1 ≤ 0x9F)
  else if b = 0xF0 then decide (0x90 ≤ c1 ∧ c1 ≤ 0xBF)
  else if b = 0xF4 then decide (0x80 ≤ c1 ∧ c1 ≤ 0x8F)
  else isCont c1

mutual

/-- Go `utf8.Valid` on a byte sequence: dispatch on the start byte, then
check the continuation bytes of one character and validate the remainder. -/
def utf8Valid : List Nat → Bool
  | [] => true
  | b :: rest =>
    if b ≤ 0x7F then utf8Valid rest
    else if 0xC2 ≤ b ∧ b ≤ 0xDF then utf8ValidTail2 rest
    else if 0xE0 ≤ b ∧ b ≤ 0xEF then utf8ValidTail3 b rest
    else if 0xF0 ≤ b ∧ b ≤ 0xF4 then utf8ValidTail4 b rest
    else false

/-- Continuation of a 2-byte character. -/
def utf8ValidTail2 : List Nat → Bool
  | c1 :: r => isCont c1 && utf8Valid r
  | [] => false

/-- Continuation of a 3-byte character with start byte `b`. -/
def utf8ValidTail3 (b : Nat) : List Nat → Bool
  | c1 :: c2 :: r => cont1OK b c1 && isCont c2 && utf8Valid r
  | [_c1] => false
  | [] => false

/-- Continuation of a 4-byte character with start byte `b`. -/
def utf8ValidTail4 (b : Nat) : List Nat → Bool
  | c1 :: c2 :: c3 :: r => cont1OK b c1 && isCont c2 && isCont c3 && utf8Valid r
  | [_c1, _c2] => false
  | [_c1] => false
  | [] => false

end

/-- A strict proper front of the encoding of one UTF-8 character: empty, or a
start byte followed by fewer admissible continuation bytes than the
character needs. -/
def isPartialChar : List Nat → Bool
  | [] => true
  | [b] =>
      decide ((0xC2 ≤ b ∧ b ≤ 0xDF) ∨ (0xE0 ≤ b ∧ b ≤ 0xEF) ∨ (0xF0 ≤ b ∧ b ≤ 0xF4))
  | [b, c1] =>
      (decide (0xE0 ≤ b ∧ b ≤ 0xEF) || decide (0xF0 ≤ b ∧ b ≤ 0xF4)) && cont1OK b c1
  | [b, c1, c2] => decide (0xF0 ≤ b ∧ b ≤ 0xF4) && cont1OK b c1 && isCont c2
  | _ => false

/-- The backward scan of `extractValidUTF8` over the last bytes
(`for i := 1; i <= checkLen; i++ …`).  The loop body inspects index
`len(data)-i` and runs at most four iterations (`checkLen = min 4 len`),
so a structural fuel of 4 replays it exactly; `none` covers both the
`break` exits and loop exhaustion. -/
def scanGo (data : List Nat) : Nat → Nat → Option Nat
  | _, 0 => none
  | i, fuel + 1 =>
    if i > min 4 data.length then none
    else if 0xC0 ≤ data.getD (data.length - i) 0 then
      if i < (if 0xF0 ≤ data.getD (data.length - i) 0 then 4
              else if 0xE0 ≤ data.getD (data.length - i) 0 then 3 else 2)
      then some (data.length - i) else none
    else if 0x80 ≤ data.getD (data.length - i) 0 then scanGo data (i + 1) fuel
    else none

/-- Entry point of the backward scan: start at `i = 1`. -/
def scanIncomplete (data : List Nat) : Option Nat :=
  scanGo data 1 4

/-- The fallback loop of `extractValidUTF8` (`for len(data) > 0 …`): strip
bytes from the end until the front validates.  Note that the successful
branch returns `(data, nil)`, discarding the bytes already stripped into
`remaining`.  The loop runs once per stripped byte, so a structural fuel of
`data.length` replays it exactly. -/
def stripLoop : Nat → List Nat → List Nat → List Nat × List Nat
  | _, [], remaining => ([], remaining)
  | 0, data, remaining => ([], data ++ remaining)
  | fuel + 1, d :: ds, remaining =>
    if utf8Valid (d :: ds) then (d :: ds, [])
    else stripLoop fuel (d :: ds).dropLast (((d :: ds).getLast?).getD 0 :: remaining)

/-- Go `extractValidUTF8` from the stream writer. -/
def extractValidUTF8 (data : List Nat) : List Nat × List Nat :=
  if data.length = 0 then ([], [])
  else if utf8Valid data then (data, [])
  else
    match scanIncomplete data with
    | some idx => (data.take idx, data.drop idx)
    | none => stripLoop data.length data []

/-! ## Stream writer (internal/api, `StreamWriter`) -/

/-- A `StreamWriter` method invocation. -/
inductive WOp where
  | content (bytes : List Nat)
  | reasoning (bytes : List Nat)
  | toolCalls (tcs : List OpenAIToolCall)
  | heartbeat
  | finish (reason : String)
deriving DecidableEq

/-- An SSE chunk written to the response sink, by payload kind. -/
inductive WOut where
  | role
  | content (bytes : List Nat)
  | reasoning (bytes : List Nat)
  | toolCalls (tcs : List OpenAIToolCall)
  | empty
  | finish (reason : String)
  | done
deriving DecidableEq

/-- The mutable fields of `StreamWriter`. -/
structure WState where
  sentRole : Bool := false
  contentBuffer : List Nat := []
  reasoningBuffer : List Nat := []
deriving DecidableEq

/-- Go `writeRoleLocked`. -/
def writeRoleLocked (st : WState) : WState × List WOut :=
  if st.sentRole then (st, [])
  else ({ st with sentRole := true }, [.role])

/-- Go `flushLocked`: emit both carry-over buffers verbatim (a non-empty byte
buffer always yields a non-empty Go string, so the inner emptiness test
never skips). -/
def flushLocked (st : WState) : WState × List WOut :=
  ({ st with contentBuffer := [], reasoningBuffer := [] },
    (if st.contentBuffer ≠ [] then [WOut.content st.contentBuffer] else [])
      ++ (if st.reasoningBuffer ≠ [] then [WOut.reasoning st.reasoningBuffer] else []))

/-- One `StreamWriter` method call: state update plus chunks written. -/
def stepOp (st : WState) : WOp → WState × List WOut
  | .content bytes =>
    let (st1, r) := writeRoleLocked st
    let (valid, remaining) := extractValidUTF8 (st1.contentBuffer ++ bytes)
    ({ st1 with contentBuffer := remaining },
      r ++ if valid = [] then [] else [.content valid])
  | .reasoning bytes =>
    let (st1, r) := writeRoleLocked st
    let (valid, remaining) := extractValidUTF8 (st1.reasoningBuffer ++ bytes)
    ({ st1 with reasoningBuffer := remaining },
      r ++ if valid = [] then [] else [.reasoning valid])
  | .toolCalls tcs =>
    let (st1, r) := writeRoleLocked st
    (st1, r ++ [.toolCalls tcs])
  | .heartbeat =>
    let (st1, r) := writeRoleLocked st
    (st1, r ++ [.empty])
  | .finish reason =>
    let (st1, f) := flushLocked st
    (st1, f ++ [.finish reason, .done])

/-- Run a sequence of writer calls from a state, collecting all chunks. -/
def runWriter (st : WState) : List WOp → WState × List WOut
  | [] => (st, [])
  | op :: ops =>
    let (st1, outs) := stepOp st op
    let (st2, outs2) := runWriter st1 ops
    (st2, outs ++ outs2)

/-- The UTF-8 carry-over step performed by one `WriteContent` call
(identical code serves `WriteReasoning` on the other buffer):
emitted delta, if any, and the new carry-over buffer. -/
def writeContentStep (buffer bytes : List Nat) : Option (List Nat) × List Nat :=
  let (valid, remaining) := extractValidUTF8 (buffer ++ bytes)
  ((if valid = [] then none else some valid), remaining)

/-- Concatenation of all content-delta payloads in a chunk list. -/
def contentDeltaBytes : List WOut → List Nat
  | [] => []
  | .content bs :: outs => bs ++ contentDeltaBytes outs
  | _ :: outs => contentDeltaBytes outs

/-- Concatenation of all bytes fed through `WriteContent` calls. -/
def fedContentBytes : List WOp → List Nat
  | [] => []
  | .content bs :: ops => bs ++ fedContentBytes ops
  | _ :: ops => fedContentBytes ops

/-- The four delta-producing writer calls of the claim (everything except
`WriteFinish`). -/
def isWriteOp : WOp → Bool
  | .finish _ => false
  | _ => true

/-- Number of role-announcement chunks in an output list. -/
def countRole (outs : List WOut) : Nat :=
  outs.countP fun o => decide (o = WOut.role)

/-! ## Upstream stream processing (internal/api, `ProcessStreamResponse`) -/

/-- Go `converter.UsageMetadata`. -/
structure UsageMetadata where
  promptTokenCount : Int := 0
  candidatesTokenCount : Int := 0
  totalTokenCount : Int := 0
  thoughtsTokenCount : Int := 0
deriving DecidableEq

/-- One part of a `StreamData` candidate. -/
structure StreamPart where
  text : String := ""
  functionCall : Option FunctionCall := none
  thought : Bool := false
deriving DecidableEq

/-- One candidate of a `StreamData` event. -/
structure StreamCandidate where
  parts : List StreamPart := []
  finishReason : String := ""
deriving DecidableEq

/-- The payload of one upstream `data:` line. -/
structure StreamData where
  candidates : List StreamCandidate := []
  usageMetadata : Option UsageMetadata := none
deriving DecidableEq

/-- One upstream line, classified the way the read loop does: no
`data: ` marker, the `[DONE]` sentinel, a marker line whose JSON fails to
unmarshal, or a parsed event. -/
inductive Line where
  | notData
  | done
  | malformed
  | event (d : StreamData)
deriving DecidableEq

/-- A `StreamChunk` passed to the callback. -/
inductive SChunk where
  | thinking (s : String)
  | text (s : String)
  | toolCalls (tcs : List OpenAIToolCall)
  | done
deriving DecidableEq

/-- The loop state of `ProcessStreamResponse`: latest usage, pending
tool calls, and a counter indexing the id-generator calls. -/
structure ProcState where
  usage : Option UsageMetadata := none
  pending : List OpenAIToolCall := []
  ctr : Nat := 0
deriving DecidableEq

/-- The tool call accumulated for one function-call part (no thought
signature on this path). -/
def mkStreamToolCall (id : String) (fc : FunctionCall) : OpenAIToolCall :=
  { id := id, type := "function", function := { name := fc.name, arguments := fc.argsJson } }

/-- The `for _, part := range candidate.Content.Parts` loop: emit
thinking/text chunks, accumulate function calls. -/
def processParts (gen : Nat → String) :
    List StreamPart → List SChunk → List OpenAIToolCall → Nat →
      List SChunk × List OpenAIToolCall × Nat
  | [], cs, pending, n => (cs, pending, n)
  | p :: ps, cs, pending, n =>
    if p.thought then processParts gen ps (cs ++ [.thinking p.text]) pending n
    else if p.text ≠ "" then processParts gen ps (cs ++ [.text p.text]) pending n
    else
      match p.functionCall with
      | some fc =>
        processParts gen ps cs
          (pending ++ [mkStreamToolCall (if fc.id = "" then gen n else fc.id) fc])
          (if fc.id = "" then n + 1 else n)
      | none => processParts gen ps cs pending n

/-- The last-write-wins usage update of one event. -/
def stepUsage (st : ProcState) (d : StreamData) : Option UsageMetadata :=
  match d.usageMetadata with
  | some u => some u
  | none => st.usage

/-- One iteration of the line-reading loop: new state, chunks emitted, and
whether the loop `break`s. -/
def stepLine (gen : Nat → String) (st : ProcState) : Line → ProcState × List SChunk × Bool
  | .notData => (st, [], false)
  | .malformed => (st, [], false)
  | .done => (st, [.done], true)
  | .event d =>
    let st1 : ProcState := { st with usage := stepUsage st d }
    match d.candidates with
    | [] => (st1, [], false)
    | cand :: _ =>
      let (cs, pending, n) := processParts gen cand.parts [] st1.pending st1.ctr
      if cand.finishReason ≠ "" ∧ pending ≠ [] then
        ({ st1 with pending := [], ctr := n }, cs ++ [.toolCalls pending], false)
      else ({ st1 with pending := pending, ctr := n }, cs, false)

/-- The line-reading loop. -/
def runLines (gen : Nat → String) (st : ProcState) : List Line → List SChunk × ProcState
  | [] => ([], st)
  | l :: ls =>
    let (st1, cs, brk) := stepLine gen st l
    if brk then (cs, st1)
    else
      let (cs2, st2) := runLines gen st1 ls
      (cs ++ cs2, st2)

/-- Go `ProcessStreamResponse`: run the loop, then flush any still-pending
tool calls once, and return the latest usage. -/
def ProcessStreamResponse (gen : Nat → String) (lines : List Line) :
    List SChunk × Option UsageMetadata :=
  let (cs, st) := runLines gen {} lines
  (cs ++ (if st.pending ≠ [] then [.toolCalls st.pending] else []), st.usage)

/-- Chunk classifier: is this a `tool_calls` chunk? -/
def isToolCallsChunk : SChunk → Bool
  | .toolCalls _ => true
  | _ => false

/-- Does this line's first candidate report a non-empty finish reason? -/
def lineReportsFinish : Line → Bool
  | .event d =>
    match d.candidates with
    | c :: _ => decide (c.finishReason ≠ "")
    | [] => false
  | _ => false

/-- Is this line the `[DONE]` sentinel? -/
def lineIsDone : Line → Bool
  | .done => true
  | _ => false

/-- Does a part take the function-call accumulation branch? -/
def partIsFC (p : StreamPart) : Bool :=
  decide (p.thought = false ∧ p.text = "" ∧ p.functionCall ≠ none)

/-- Does this line's first candidate carry a function-call part? -/
def lineHasFC : Line → Bool
  | .event d =>
    match d.candidates with
    | c :: _ => c.parts.any partIsFC
    | [] => false
  | _ => false

/-! ## Bypass streaming (handlers.handleBypassStream) -/

/-- Wire events of the bypass handler, coalescing the buffered
reasoning/tool-call/content writes into one `burst`. -/
inductive BEv where
  | hb
  | burst
  | finish
deriving DecidableEq

/-- Joint state of the handler task and its heartbeat goroutine.
`mainPC`: 0 before the first synchronous heartbeat, 1 while the upstream
call is in flight, 2 after `close(done)`, 3 after the burst, 4 after the
finish event.  `hbStopped` records whether the goroutine has returned. -/
structure BState where
  mainPC : Nat := 0
  doneClosed : Bool := false
  hbStopped : Bool := false
  wire : List BEv := []
deriving DecidableEq

/-- Interleaving semantics of `handleBypassStream`.  The goroutine may
write a heartbeat whenever it has not returned — also after `close(done)`,
because a ready ticker and the closed channel race inside `select`, and the
handler never joins the goroutine before writing the burst. -/
inductive BypassStep : BState → BState → Prop where
  | firstHeartbeat (s : BState) :
      s.mainPC = 0 → BypassStep s { s with mainPC := 1, wire := s.wire ++ [.hb] }
  | closeDone (s : BState) :
      s.mainPC = 1 → BypassStep s { s with mainPC := 2, doneClosed := true }
  | emitBurst (s : BState) :
      s.mainPC = 2 → BypassStep s { s with mainPC := 3, wire := s.wire ++ [.burst] }
  | emitFinish (s : BState) :
      s.mainPC = 3 → BypassStep s { s with mainPC := 4, wire := s.wire ++ [.finish] }
  | hbTick (s : BState) :
      s.hbStopped = false → s.mainPC ≥ 1 → BypassStep s { s with wire := s.wire ++ [.hb] }
  | hbStop (s : BState) :
      s.doneClosed = true → BypassStep s { s with hbStopped := true }

/-- Reachability under the bypass interleaving semantics. -/
def BypassReach : BState → BState → Prop :=
  Relation.ReflTransGen BypassStep

/-! ## Credential-by-identity handler
(handlers.HandleChatCompletionsWithCredential) -/

/-- Modelled from the spec: the account store lookups
(`GetTokenByEmail`, `GetTokenByProjectID` of the `store` package) are not
under src/; per the spec they "return that specific credential's token
regardless of routing mode, or fail with a not-found condition", so they
are abstracted as partial maps. -/
structure AccountStore where
  byEmail : String → Option Account
  byProjectID : String → Option Account

/-- Outcome of the credential-by-identity handler: a 404 response, or an
upstream call with the found token. -/
inductive CredOutcome where
  | notFound (msg : String)
  | upstream (token : Account) (streamed : Bool)
deriving DecidableEq

/-- Go `HandleChatCompletionsWithCredential` after request decoding: interpret
the path segment as email iff it contains `@`, look the credential up, and
either fail with not-found or proceed upstream. -/
def HandleChatCompletionsWithCredential (store : AccountStore) (credential : String)
    (req : OpenAIChatRequest) : CredOutcome :=
  match (if credential.data.contains '@' then store.byEmail credential
         else store.byProjectID credential) with
  | some token => .upstream token req.stream
  | none => .notFound ("Credential not found: " ++ credential)

/-! ## Response conversion (converter.ConvertToOpenAIResponse) -/

/-- Go `converter.Candidate`. -/
structure Candidate where
  content : Content
  finishReason : String := ""
  index : Int := 0
deriving DecidableEq

/-- The inner object of `converter.AntigravityResponse`. -/
structure AntigravityResponseInner where
  candidates : List Candidate := []
  usageMetadata : Option UsageMetadata := none
deriving DecidableEq

/-- Go `converter.AntigravityResponse`. -/
structure AntigravityResponse where
  response : AntigravityResponseInner
deriving DecidableEq

/-- Go `converter.Usage`. -/
structure Usage where
  promptTokens : Int
  completionTokens : Int
  totalTokens : Int
deriving DecidableEq

/-- Go `converter.Message`. -/
structure Message where
  role : String
  content : String
  toolCalls : List OpenAIToolCall := []
  reasoning : String := ""
deriving DecidableEq

/-- Go `converter.Choice` (non-streaming shape). -/
structure Choice where
  index : Int
  message : Message
  finishReason : Option String
deriving DecidableEq

/-- Go `converter.OpenAIChatCompletion`. -/
structure OpenAIChatCompletion where
  id : String
  object : String
  created : Int
  model : String
  choices : List Choice
  usage : Option Usage := none
deriving DecidableEq

/-- Effectful collaborators of the response converter, abstracted:
tool-call id generation (indexed by call order), completion id, clock. -/
structure GenEnv where
  generateToolCallID : Nat → String
  generateChatCompletionID : String
  nowUnix : Int

/-- Go `ConvertUsage`. -/
def ConvertUsage : Option UsageMetadata → Option Usage
  | none => none
  | some m =>
    some { promptTokens := m.promptTokenCount
           completionTokens := m.candidatesTokenCount
           totalTokens := m.totalTokenCount }

/-- The part loop of `ConvertToOpenAIResponse`: accumulating content,
thinking text, tool calls and image data urls, in order. -/
def respFold (gen : Nat → String) :
    List Part → String → String → List OpenAIToolCall → List String → Nat →
      String × String × List OpenAIToolCall × List String
  | [], content, thinking, tcs, imgs, _ => (content, thinking, tcs, imgs)
  | p :: ps, content, thinking, tcs, imgs, n =>
    if p.thought then respFold gen ps content (thinking ++ p.text) tcs imgs n
    else if p.text ≠ "" then respFold gen ps (content ++ p.text) thinking tcs imgs n
    else
      match p.functionCall with
      | some fc =>
        respFold gen ps content thinking
          (tcs ++ [{ id := if fc.id = "" then gen n else fc.id
                     type := "function"
                     function := { name := fc.name, arguments := fc.argsJson }
                     thoughtSignature := p.thoughtSignature }])
          imgs (if fc.id = "" then n + 1 else n)
      | none =>
        match p.inlineData with
        | some d =>
          respFold gen ps content thinking tcs
            (imgs ++ ["data:" ++ d.mimeType ++ ";base64," ++ d.data]) n
        | none => respFold gen ps content thinking tcs imgs n

/-- Go `ConvertToOpenAIResponse`.  The Go function indexes `Candidates[0]`
unconditionally and panics on an empty candidate list; the out-of-bounds
access is modelled as the `none` result. -/
def ConvertToOpenAIResponse (gen : GenEnv) (resp : AntigravityResponse)
    (model : String) : Option OpenAIChatCompletion :=
  match resp.response.candidates with
  | [] => none
  | cand :: _ =>
    let (content, thinking, toolCalls, imgs) :=
      respFold gen.generateToolCallID cand.content.parts "" "" [] [] 0
    let content :=
      if imgs ≠ [] then
        (if content ≠ "" then content ++ "\n\n" else "")
          ++ String.intercalate "" (imgs.map fun u => "![image](" ++ u ++ ")\n\n")
      else content
    some
      { id := gen.generateChatCompletionID
        object := "chat.completion"
        created := gen.nowUnix
        model := model
        choices :=
          [{ index := 0
             message :=
               { role := "assistant", content := content
                 toolCalls := toolCalls, reasoning := thinking }
             finishReason := some (if toolCalls ≠ [] then "tool_calls" else "stop") }]
        usage := ConvertUsage resp.response.usageMetadata }

/-! ## Concrete inputs used by witnesses and counterexamples -/

/-- A model environment in which every model's default enables thinking. -/
def envThinking : ModelEnv :=
  { resolveModelName := fun s => s
    isClaudeModel := fun _ => false
    getClaudeMaxOutputTokens := fun _ => 0
    shouldEnableThinking := fun _ => true
    buildThinkingConfig := fun _ => { includeThoughts := true }
    defaultStopSequences := []
    generateProjectID := "p"
    generateRequestID := "r"
    userAgent := "ua" }

/-- A tool call as it would arrive in a request message. -/
def tcDemo : OpenAIToolCall :=
  { id := "call1", function := { name := "f", arguments := "" } }

/-- A user-role message carrying a (non-assistant) tool_calls list. -/
def msgUserWithTC : OpenAIMessage :=
  { role := "user", content := .str "hi", toolCalls := [tcDemo] }

/-- A request whose only message is `msgUserWithTC`. -/
def reqUserWithTC : OpenAIChatRequest :=
  { model := "m", messages := [msgUserWithTC] }

/-- A tool-role message. -/
def msgTool1 : OpenAIMessage :=
  { role := "tool", content := .str "out1", toolCallID := "call1" }

/-- A second tool-role message answering a different call. -/
def msgTool2 : OpenAIMessage :=
  { role := "tool", content := .str "out2", toolCallID := "call2" }

/-- A request whose only message is a tool-role message. -/
def reqWithToolMsg : OpenAIChatRequest :=
  { model := "m", messages := [msgTool1] }

/-- A plain user message. -/
def msgUser : OpenAIMessage := { role := "user", content := .str "hi" }

/-- A second tool call, answered by `msgTool2`. -/
def tcDemo2 : OpenAIToolCall :=
  { id := "call2", function := { name := "g", arguments := "" } }

/-- An assistant message issuing two tool calls. -/
def msgAsstTC : OpenAIMessage :=
  { role := "assistant", content := .str "ok", toolCalls := [tcDemo, tcDemo2] }

/-- An assistant message with empty text and no tool calls. -/
def msgAsstEmpty : OpenAIMessage := { role := "assistant", content := .str "" }

/-- A system message. -/
def msgSystem : OpenAIMessage := { role := "system", content := .str "sys" }

/-- An assistant message with plain text. -/
def msgAsstText : OpenAIMessage := { role := "assistant", content := .str "yo" }

/-- An account store with one credential reachable by email and one by
project id. -/
def storeDemo : AccountStore :=
  { byEmail := fun e => if e = "a@b.c" then some { email := "a@b.c" } else none
    byProjectID := fun pid => if pid = "proj7" then some { projectID := "proj7" } else none }

/-- A function call appearing in upstream stream events. -/
def fcDemoA : FunctionCall := { id := "1", name := "f", argsJson := "" }

/-- A second function call with a different id. -/
def fcDemoB : FunctionCall := { id := "2", name := "g", argsJson := "" }

/-- An event line carrying one function-call part and no finish reason. -/
def lineFC (fc : FunctionCall) : Line :=
  .event { candidates := [{ parts := [{ functionCall := some fc }] }] }

/-- An event line carrying one function-call part and finish reason STOP. -/
def lineFCFin (fc : FunctionCall) : Line :=
  .event { candidates := [{ parts := [{ functionCall := some fc }], finishReason := "STOP" }] }

/-- An event line carrying one plain text part. -/
def lineText : Line := .event { candidates := [{ parts := [{ text := "hi" }] }] }

/-- A fixed id generator. -/
def genDemo : Nat → String := fun _ => "gid"

/-- The event payload behind the finish-reason demo line: one
function-call part and finish reason STOP. -/
def sdFin : StreamData :=
  { candidates := [{ parts := [{ functionCall := some fcDemoA }], finishReason := "STOP" }] }

end Anti2Api

namespace Anti2Api

/-! # Theorems

## Converter lemmas -/

theorem convertLoop_append (xs ys : List OpenAIMessage) (acc : List Content) :
    convertLoop (xs ++ ys) acc = convertLoop ys (convertLoop xs acc) := by
  induction xs generalizing acc with
  | nil => rfl
  | cons m ms ih => simpa [convertLoop] using ih (stepMsg acc m)

theorem findSome?_fcScan_none (tcid : String) (ps : List Part)
    (h : ∀ p ∈ ps, p.functionCall = none) :
    ps.findSome? (fcScan tcid) = none := by
  refine List.findSome?_eq_none_iff.mpr fun p hp => ?_
  simp [fcScan, h p hp]

theorem findFunctionName_concat_noFC (contents : List Content) (c : Content)
    (hc : ∀ p ∈ c.parts, p.functionCall = none) (tcid : String) :
    findFunctionName (contents ++ [c]) tcid = findFunctionName contents tcid := by
  unfold findFunctionName
  rw [List.reverse_append]
  simp [List.findSome?_cons, findSome?_fcScan_none tcid c.parts hc]

theorem findFunctionName_extend_last (pre : List Content) (r : String) (op rp : List Part)
    (hrp : ∀ p ∈ rp, p.functionCall = none) (tcid : String) :
    findFunctionName (pre ++ [{ role := r, parts := op ++ rp }]) tcid
      = findFunctionName (pre ++ [{ role := r, parts := op }]) tcid := by
  have key : (op ++ rp).findSome? (fcScan tcid) = op.findSome? (fcScan tcid) := by
    rw [List.findSome?_append, findSome?_fcScan_none tcid rp hrp, Option.or_none]
  unfold findFunctionName
  simp [List.reverse_append, List.findSome?_cons, key]

theorem toolRespPart_extend_last (pre : List Content) (r : String) (op rp : List Part)
    (hrp : ∀ p ∈ rp, p.functionCall = none) (m : OpenAIMessage) :
    toolRespPart (pre ++ [{ role := r, parts := op ++ rp }]) m
      = toolRespPart (pre ++ [{ role := r, parts := op }]) m := by
  unfold toolRespPart
  rw [findFunctionName_extend_last pre r op rp hrp]

theorem toolRespPart_functionCall (contents : List Content) (m : OpenAIMessage) :
    (toolRespPart contents m).functionCall = none := rfl

theorem stepMsg_tool (acc : List Content) (t : OpenAIMessage) (ht : t.role = "tool") :
    stepMsg acc t = appendFunctionResponse acc (toolRespPart acc t) := by
  unfold stepMsg
  rw [ht]
  rw [if_neg (by decide : ¬("tool" : String) = "system"),
    if_neg (by decide : ¬("tool" : String) = "user"),
    if_neg (by decide : ¬("tool" : String) = "assistant"), if_pos rfl]

theorem appendFunctionResponse_last_user (pre : List Content) (ps : List Part) (part : Part) :
    appendFunctionResponse (pre ++ [⟨"user", ps⟩]) part
      = pre ++ [(⟨"user", ps ++ [part]⟩ : Content)] := by
  unfold appendFunctionResponse
  rw [List.getLast?_concat]
  simp [List.dropLast_concat]

theorem appendFunctionResponse_last_model (contents : List Content) (c : Content)
    (hc : contents.getLast? = some c) (hrole : c.role = "model") (part : Part) :
    appendFunctionResponse contents part = contents ++ [(⟨"user", [part]⟩ : Content)] := by
  unfold appendFunctionResponse
  rw [hc]
  simp only [if_pos hrole]

theorem convertLoop_tool_run (ts : List OpenAIMessage) (pre : List Content) (op rp : List Part)
    (hts : ∀ t ∈ ts, t.role = "tool") (hrp : ∀ p ∈ rp, p.functionCall = none) :
    convertLoop ts (pre ++ [⟨"user", op ++ rp⟩])
      = pre ++ [(⟨"user", op ++ rp ++ ts.map (toolRespPart (pre ++ [⟨"user", op⟩]))⟩ : Content)] := by
  induction ts generalizing rp with
  | nil => simp [convertLoop]
  | cons t ts ih =>
    have ht : t.role = "tool" := hts t (List.mem_cons_self t ts)
    have hstep :
        stepMsg (pre ++ [(⟨"user", op ++ rp⟩ : Content)]) t
          = pre ++ [(⟨"user", op ++ (rp ++ [toolRespPart (pre ++ [⟨"user", op⟩]) t])⟩ : Content)] := by
      rw [stepMsg_tool _ t ht,
        toolRespPart_extend_last pre "user" op rp hrp t,
        appendFunctionResponse_last_user]
      simp [List.append_assoc]
    have ih2 := ih (rp ++ [toolRespPart (pre ++ [(⟨"user", op⟩ : Content)]) t])
      (fun x hx => hts x (List.mem_cons_of_mem t hx))
      (by
        intro p hp
        rcases List.mem_append.mp hp with h1 | h1
        · exact hrp p h1
        · rw [List.mem_singleton.mp h1]; rfl)
    rw [convertLoop, hstep, ih2]
    simp [List.append_assoc]

theorem stepMsg_no_tool (acc : List Content) (m : OpenAIMessage) (h : m.role ≠ "tool") :
    stepMsg acc m = acc ++ (msgTurn m).toList := by
  unfold stepMsg msgTurn
  split_ifs <;> simp_all

theorem convertLoop_no_tool (ms : List OpenAIMessage) (acc : List Content)
    (h : ∀ m ∈ ms, m.role ≠ "tool") :
    convertLoop ms acc = acc ++ ms.filterMap msgTurn := by
  induction ms generalizing acc with
  | nil => simp [convertLoop]
  | cons m ms ih =>
    rw [convertLoop, stepMsg_no_tool acc m (h m (List.mem_cons_self m ms)),
      ih _ fun x hx => h x (List.mem_cons_of_mem m hx)]
    cases hm : msgTurn m <;> simp [hm]

theorem length_filter_filterMap {α β : Type} (f : α → Option β) (p : β → Bool) (q : α → Bool)
    (l : List α) (hpq : ∀ a ∈ l, ((f a).map p).getD false = q a) :
    ((l.filterMap f).filter p).length = (l.filter q).length := by
  induction l with
  | nil => rfl
  | cons a l ih =>
    have h1 := hpq a (List.mem_cons_self a l)
    have ih2 := ih fun x hx => hpq x (List.mem_cons_of_mem a hx)
    cases hf : f a with
    | none =>
      rw [hf] at h1
      simp only [Option.map_none', Option.getD_none] at h1
      simp [List.filterMap_cons, hf, List.filter_cons, ← h1, ih2]
    | some b =>
      rw [hf] at h1
      simp only [Option.map_some', Option.getD_some] at h1
      by_cases hb : p b = true <;>
        simp [List.filterMap_cons, hf, List.filter_cons, ← h1, hb, ih2]

theorem generationConfig_of_convert (env : ModelEnv) (req : OpenAIChatRequest)
    (account : Account) :
    (ConvertOpenAIToAntigravity env req account).request.generationConfig
      = some (buildGenerationConfig env req (env.resolveModelName req.model)
          (hasToolCallsInHistory req.messages)) := by
  unfold ConvertOpenAIToAntigravity
  split_ifs <;> rfl

theorem buildGenerationConfig_thinkingConfig (env : ModelEnv) (req : OpenAIChatRequest)
    (modelName : String) (hh : Bool) :
    (buildGenerationConfig env req modelName hh).thinkingConfig
      = if (!hh && env.shouldEnableThinking modelName) = true
          then some (env.buildThinkingConfig modelName) else none := by
  unfold buildGenerationConfig
  split_ifs <;> rfl

theorem hasToolCallsInHistory_true_of (msgs : List OpenAIMessage)
    (h : ∃ m ∈ msgs, m.role = "tool" ∨ m.toolCalls ≠ []) :
    hasToolCallsInHistory msgs = true := by
  obtain ⟨m, hm, hcase⟩ := h
  unfold hasToolCallsInHistory
  rw [List.any_eq_true]
  refine ⟨m, hm, decide_eq_true ?_⟩
  rcases hcase with h1 | h1
  · exact Or.inr h1
  · exact Or.inl (List.length_pos.mpr h1)

theorem hasToolCallsInHistory_false_of (msgs : List OpenAIMessage)
    (h : ∀ m ∈ msgs, m.role ≠ "tool" ∧ m.toolCalls = []) :
    hasToolCallsInHistory msgs = false := by
  unfold hasToolCallsInHistory
  rw [List.any_eq_false]
  intro m hm
  obtain ⟨h1, h2⟩ := h m hm
  simp [h1, h2]

/-! ## C1: thinking suppression -/

/-- C1 (amended): thinking is absent from the translated request whenever
any message has role `tool` or a non-empty tool_calls list (the code checks
tool_calls on every message, not only assistant ones); when no message has
role `tool` and no message carries tool calls, thinking is present exactly
when the destination model's default enables it — for every model
environment, i.e. regardless of the destination model. -/
theorem thinking_suppression (env : ModelEnv) (req : OpenAIChatRequest) (account : Account) :
    ((∃ m ∈ req.messages, m.role = "tool" ∨ m.toolCalls ≠ []) →
      ((ConvertOpenAIToAntigravity env req account).request.generationConfig.map
          fun g => g.thinkingConfig) = some none) ∧
    ((∀ m ∈ req.messages, m.role ≠ "tool" ∧ m.toolCalls = []) →
      ((ConvertOpenAIToAntigravity env req account).request.generationConfig.map
          fun g => g.thinkingConfig.isSome)
        = some (env.shouldEnableThinking (env.resolveModelName req.model))) := by
  constructor
  · intro h
    rw [generationConfig_of_convert]
    simp only [Option.map_some']
    rw [buildGenerationConfig_thinkingConfig, hasToolCallsInHistory_true_of req.messages h]
    simp
  · intro h
    rw [generationConfig_of_convert]
    simp only [Option.map_some']
    rw [buildGenerationConfig_thinkingConfig, hasToolCallsInHistory_false_of req.messages h]
    cases env.shouldEnableThinking (env.resolveModelName req.model) <;> simp

/-- C1 witness: a history containing a tool-role message yields a request
with no thinking config, in an environment whose models all default to
thinking. -/
theorem thinking_suppression_witness :
    (∃ m ∈ reqWithToolMsg.messages, m.role = "tool" ∨ m.toolCalls ≠ []) ∧
    ((ConvertOpenAIToAntigravity envThinking reqWithToolMsg {}).request.generationConfig.map
        fun g => g.thinkingConfig) = some none :=
  ⟨⟨msgTool1, by decide, Or.inl rfl⟩,
    (thinking_suppression envThinking reqWithToolMsg {}).1
      ⟨msgTool1, by decide, Or.inl rfl⟩⟩

/-- C1 counterexample: a history whose only message is a user-role message
carrying a tool call contains no tool-role message and no assistant message
with tool calls, yet thinking is suppressed even though the model's default
enables it — the code keys on tool_calls of any message, so the claim's
"for a history with neither, thinking is enabled whenever the model's
default enables it" fails here. -/
theorem thinking_suppression_counterexample :
    (∀ m ∈ reqUserWithTC.messages,
        m.role ≠ "tool" ∧ (m.role = "assistant" → m.toolCalls = [])) ∧
    envThinking.shouldEnableThinking (envThinking.resolveModelName reqUserWithTC.model) = true ∧
    ((ConvertOpenAIToAntigravity envThinking reqUserWithTC {}).request.generationConfig.map
        fun g => g.thinkingConfig) = some none := by
  refine ⟨by decide, rfl, ?_⟩
  decide

/-! ## C2: tool-result folding -/

/-- C2: tool-role messages are never independent turns; a run of tool
messages appended after a history whose built turns end in a model turn
folds into exactly one new trailing user turn with one function-response
part per tool message, the names resolved against the already-built turns;
if the trailing built turn is already a user turn, the function-response
parts are appended into it instead of creating a new turn. -/
theorem tool_result_folding (ms ts : List OpenAIMessage)
    (hne : ts ≠ []) (hts : ∀ t ∈ ts, t.role = "tool") :
    ((convertMessages ms).getLast?.map (fun c => c.role) = some "model" →
      convertMessages (ms ++ ts)
        = convertMessages ms
            ++ [{ role := "user", parts := ts.map (toolRespPart (convertMessages ms)) }]) ∧
    ((convertMessages ms).getLast?.map (fun c => c.role) = some "user" →
      convertMessages (ms ++ ts)
        = (convertMessages ms).dropLast
            ++ [{ role := "user",
                  parts := ((convertMessages ms).getLast?.elim [] fun c => c.parts)
                    ++ ts.map (toolRespPart (convertMessages ms)) }]) := by
  have hsplit : convertMessages (ms ++ ts) = convertLoop ts (convertMessages ms) := by
    unfold convertMessages
    exact convertLoop_append ms ts []
  constructor
  · intro hlast
    obtain ⟨c, hc, hrole⟩ :
        ∃ c, (convertMessages ms).getLast? = some c ∧ c.role = "model" := by
      cases h : (convertMessages ms).getLast? with
      | none => rw [h] at hlast; simp at hlast
      | some c => rw [h] at hlast; exact ⟨c, rfl, by simpa using hlast⟩
    obtain ⟨t, ts2, rfl⟩ := List.exists_cons_of_ne_nil hne
    have ht : t.role = "tool" := hts t (List.mem_cons_self t ts2)
    have hstep :
        stepMsg (convertMessages ms) t
          = convertMessages ms
              ++ [(⟨"user", [] ++ [toolRespPart (convertMessages ms) t]⟩ : Content)] := by
      rw [stepMsg_tool _ t ht,
        appendFunctionResponse_last_model (convertMessages ms) c hc hrole]
      simp
    rw [hsplit, convertLoop, hstep,
      convertLoop_tool_run ts2 (convertMessages ms) []
        [toolRespPart (convertMessages ms) t]
        (fun x hx => hts x (List.mem_cons_of_mem t hx))
        (by intro p hp; rw [List.mem_singleton.mp hp]; rfl)]
    have hnames : ∀ x ∈ ts2,
        toolRespPart (convertMessages ms ++ [{ role := "user", parts := [] }]) x
          = toolRespPart (convertMessages ms) x := by
      intro x _
      unfold toolRespPart
      rw [findFunctionName_concat_noFC (convertMessages ms)
        { role := "user", parts := [] } (by intro p hp; simp at hp) x.toolCallID]
    rw [List.map_congr_left hnames]
    simp
  · intro hlast
    obtain ⟨c, hc, hrole⟩ :
        ∃ c, (convertMessages ms).getLast? = some c ∧ c.role = "user" := by
      cases h : (convertMessages ms).getLast? with
      | none => rw [h] at hlast; simp at hlast
      | some c => rw [h] at hlast; exact ⟨c, rfl, by simpa using hlast⟩
    have hdecomp : convertMessages ms
        = (convertMessages ms).dropLast ++ [{ role := "user", parts := c.parts }] := by
      have h1 := List.dropLast_append_getLast? c hc
      have h2 : c = { role := "user", parts := c.parts } := by
        cases c with
        | mk r ps => simp_all
      rw [← h2, h1]
    rw [hsplit]
    conv_lhs => rw [hdecomp]
    rw [show (c.parts : List Part) = c.parts ++ [] from (List.append_nil _).symm,
      convertLoop_tool_run ts (convertMessages ms).dropLast c.parts [] hts
        (by intro p hp; simp at hp)]
    have hback : (convertMessages ms).dropLast ++ [{ role := "user", parts := c.parts }]
        = convertMessages ms := hdecomp.symm
    rw [hc]
    simp only [Option.elim_some]
    rw [hback]
    simp

/-- C2 witness: two tool messages answering the two calls of a trailing
assistant turn fold into one new user turn with two function-response
parts. -/
theorem tool_result_folding_witness :
    ((convertMessages [msgUser, msgAsstTC]).getLast?.map (fun c => c.role) = some "model") ∧
    convertMessages ([msgUser, msgAsstTC] ++ [msgTool1, msgTool2])
      = convertMessages [msgUser, msgAsstTC]
          ++ [{ role := "user",
                parts := [msgTool1, msgTool2].map
                  (toolRespPart (convertMessages [msgUser, msgAsstTC])) }] :=
  ⟨by decide,
    (tool_result_folding [msgUser, msgAsstTC] [msgTool1, msgTool2]
      (by decide) (by decide)).1 (by decide)⟩

/-! ## C8: user/assistant turn correspondence -/

/-- C8 (amended): for a history without tool-role messages, the built turns
are exactly the per-message turns in original order — each user message
yields exactly one user turn, each assistant message yields exactly one
model turn precisely when it has non-empty text or tool calls, and an
assistant message with empty text and no tool calls yields no turn. -/
theorem user_assistant_turn_correspondence (ms : List OpenAIMessage)
    (h : ∀ m ∈ ms, m.role ≠ "tool") :
    convertMessages ms = ms.filterMap msgTurn ∧
    ((convertMessages ms).filter fun c => decide (c.role = "user")).length
      = (ms.filter fun m => decide (m.role = "user")).length ∧
    ((convertMessages ms).filter fun c => decide (c.role = "model")).length
      = (ms.filter fun m => decide (m.role = "assistant" ∧ assistantParts m ≠ [])).length := by
  have hmain : convertMessages ms = ms.filterMap msgTurn := by
    unfold convertMessages
    simpa using convertLoop_no_tool ms [] h
  refine ⟨hmain, ?_, ?_⟩
  · rw [hmain]
    refine length_filter_filterMap msgTurn _ _ ms fun m hm => ?_
    unfold msgTurn
    split_ifs <;> simp_all
  · rw [hmain]
    refine length_filter_filterMap msgTurn _ _ ms fun m hm => ?_
    have := h m hm
    unfold msgTurn
    split_ifs <;> simp_all

/-- C8 witness: a mixed tool-free history maps message-by-message, dropping
the system message and the empty assistant message. -/
theorem user_assistant_turn_correspondence_witness :
    (∀ m ∈ [msgSystem, msgUser, msgAsstEmpty, msgAsstText], m.role ≠ "tool") ∧
    convertMessages [msgSystem, msgUser, msgAsstEmpty, msgAsstText]
      = [msgSystem, msgUser, msgAsstEmpty, msgAsstText].filterMap msgTurn :=
  ⟨by decide,
    (user_assistant_turn_correspondence [msgSystem, msgUser, msgAsstEmpty, msgAsstText]
      (by decide)).1⟩

/-- C8 counterexample: an assistant message with empty text content and no
tool calls produces no model turn at all, so assistant messages do not map
1:1 to model turns. -/
theorem user_assistant_turn_counterexample :
    msgAsstEmpty.role = "assistant" ∧ convertMessages [msgAsstEmpty] = [] := by
  constructor
  · rfl
  · decide

end Anti2Api
namespace Anti2Api

/-! ## UTF-8 lemmas -/

theorem utf8Valid_ascii (b : Nat) (rest : List Nat) (h : b ≤ 0x7F) :
    utf8Valid (b :: rest) = utf8Valid rest := by
  rw [utf8Valid.eq_2, if_pos h]

theorem utf8Valid_two (b c1 : Nat) (r : List Nat) (h1 : ¬ b ≤ 0x7F)
    (h2 : 0xC2 ≤ b ∧ b ≤ 0xDF) :
    utf8Valid (b :: c1 :: r) = (isCont c1 && utf8Valid r) := by
  rw [utf8Valid.eq_2, if_neg h1, if_pos h2, utf8ValidTail2.eq_1]

theorem utf8Valid_two_nil (b : Nat) (h1 : ¬ b ≤ 0x7F) (h2 : 0xC2 ≤ b ∧ b ≤ 0xDF) :
    utf8Valid [b] = false := by
  rw [utf8Valid.eq_2, if_neg h1, if_pos h2, utf8ValidTail2.eq_2]

theorem utf8Valid_three (b c1 c2 : Nat) (r : List Nat) (h1 : ¬ b ≤ 0x7F)
    (h2 : ¬ (0xC2 ≤ b ∧ b ≤ 0xDF)) (h3 : 0xE0 ≤ b ∧ b ≤ 0xEF) :
    utf8Valid (b :: c1 :: c2 :: r) = (cont1OK b c1 && isCont c2 && utf8Valid r) := by
  rw [utf8Valid.eq_2, if_neg h1, if_neg h2, if_pos h3, utf8ValidTail3.eq_1]

theorem utf8Valid_three_nil (b : Nat) (h1 : ¬ b ≤ 0x7F)
    (h2 : ¬ (0xC2 ≤ b ∧ b ≤ 0xDF)) (h3 : 0xE0 ≤ b ∧ b ≤ 0xEF) :
    utf8Valid [b] = false := by
  rw [utf8Valid.eq_2, if_neg h1, if_neg h2, if_pos h3, utf8ValidTail3.eq_3]

theorem utf8Valid_three_one (b c1 : Nat) (h1 : ¬ b ≤ 0x7F)
    (h2 : ¬ (0xC2 ≤ b ∧ b ≤ 0xDF)) (h3 : 0xE0 ≤ b ∧ b ≤ 0xEF) :
    utf8Valid [b, c1] = false := by
  rw [utf8Valid.eq_2, if_neg h1, if_neg h2, if_pos h3, utf8ValidTail3.eq_2]

theorem utf8Valid_four (b c1 c2 c3 : Nat) (r : List Nat) (h1 : ¬ b ≤ 0x7F)
    (h2 : ¬ (0xC2 ≤ b ∧ b ≤ 0xDF)) (h3 : ¬ (0xE0 ≤ b ∧ b ≤ 0xEF))
    (h4 : 0xF0 ≤ b ∧ b ≤ 0xF4) :
    utf8Valid (b :: c1 :: c2 :: c3 :: r)
      = (cont1OK b c1 && isCont c2 && isCont c3 && utf8Valid r) := by
  rw [utf8Valid.eq_2, if_neg h1, if_neg h2, if_neg h3, if_pos h4, utf8ValidTail4.eq_1]

theorem utf8Valid_four_nil (b : Nat) (h1 : ¬ b ≤ 0x7F)
    (h2 : ¬ (0xC2 ≤ b ∧ b ≤ 0xDF)) (h3 : ¬ (0xE0 ≤ b ∧ b ≤ 0xEF))
    (h4 : 0xF0 ≤ b ∧ b ≤ 0xF4) : utf8Valid [b] = false := by
  rw [utf8Valid.eq_2, if_neg h1, if_neg h2, if_neg h3, if_pos h4, utf8ValidTail4.eq_4]

theorem utf8Valid_four_one (b c1 : Nat) (h1 : ¬ b ≤ 0x7F)
    (h2 : ¬ (0xC2 ≤ b ∧ b ≤ 0xDF)) (h3 : ¬ (0xE0 ≤ b ∧ b ≤ 0xEF))
    (h4 : 0xF0 ≤ b ∧ b ≤ 0xF4) : utf8Valid [b, c1] = false := by
  rw [utf8Valid.eq_2, if_neg h1, if_neg h2, if_neg h3, if_pos h4, utf8ValidTail4.eq_3]

theorem utf8Valid_four_two (b c1 c2 : Nat) (h1 : ¬ b ≤ 0x7F)
    (h2 : ¬ (0xC2 ≤ b ∧ b ≤ 0xDF)) (h3 : ¬ (0xE0 ≤ b ∧ b ≤ 0xEF))
    (h4 : 0xF0 ≤ b ∧ b ≤ 0xF4) : utf8Valid [b, c1, c2] = false := by
  rw [utf8Valid.eq_2, if_neg h1, if_neg h2, if_neg h3, if_pos h4, utf8ValidTail4.eq_2]

theorem utf8Valid_bad (b : Nat) (rest : List Nat) (h1 : ¬ b ≤ 0x7F)
    (h2 : ¬ (0xC2 ≤ b ∧ b ≤ 0xDF)) (h3 : ¬ (0xE0 ≤ b ∧ b ≤ 0xEF))
    (h4 : ¬ (0xF0 ≤ b ∧ b ≤ 0xF4)) : utf8Valid (b :: rest) = false := by
  rw [utf8Valid.eq_2, if_neg h1, if_neg h2, if_neg h3, if_neg h4]

end Anti2Api
namespace Anti2Api

theorem utf8Valid_append_aux (n : Nat) : ∀ v : List Nat, v.length ≤ n →
    utf8Valid v = true → ∀ w, utf8Valid (v ++ w) = utf8Valid w := by
  induction n with
  | zero =>
    intro v hlen _ w
    rw [List.length_eq_zero.mp (Nat.le_zero.mp hlen), List.nil_append]
  | succ n ih =>
    intro v hlen hva w
    match v with
    | [] => rw [List.nil_append]
    | b :: rest =>
      simp only [List.length_cons, Nat.add_le_add_iff_right] at hlen
      by_cases hb : b ≤ 0x7F
      · rw [utf8Valid_ascii b rest hb] at hva
        rw [List.cons_append, utf8Valid_ascii b _ hb]
        exact ih rest hlen hva w
      · by_cases h2 : 0xC2 ≤ b ∧ b ≤ 0xDF
        · match rest with
          | [] => rw [utf8Valid_two_nil b hb h2] at hva; cases hva
          | c1 :: r =>
            rw [utf8Valid_two b c1 r hb h2, Bool.and_eq_true] at hva
            rw [List.cons_append, List.cons_append, utf8Valid_two b c1 _ hb h2,
              hva.1, Bool.true_and]
            exact ih r (by simp at hlen; omega) hva.2 w
        · by_cases h3 : 0xE0 ≤ b ∧ b ≤ 0xEF
          · match rest with
            | [] => rw [utf8Valid_three_nil b hb h2 h3] at hva; cases hva
            | [c1] => rw [utf8Valid_three_one b c1 hb h2 h3] at hva; cases hva
            | c1 :: c2 :: r =>
              rw [utf8Valid_three b c1 c2 r hb h2 h3, Bool.and_eq_true,
                Bool.and_eq_true] at hva
              rw [List.cons_append, List.cons_append, List.cons_append,
                utf8Valid_three b c1 c2 _ hb h2 h3, hva.1.1, hva.1.2,
                Bool.true_and, Bool.true_and]
              exact ih r (by simp at hlen; omega) hva.2 w
          · by_cases h4 : 0xF0 ≤ b ∧ b ≤ 0xF4
            · match rest with
              | [] => rw [utf8Valid_four_nil b hb h2 h3 h4] at hva; cases hva
              | [c1] => rw [utf8Valid_four_one b c1 hb h2 h3 h4] at hva; cases hva
              | [c1, c2] => rw [utf8Valid_four_two b c1 c2 hb h2 h3 h4] at hva; cases hva
              | c1 :: c2 :: c3 :: r =>
                rw [utf8Valid_four b c1 c2 c3 r hb h2 h3 h4, Bool.and_eq_true,
                  Bool.and_eq_true, Bool.and_eq_true] at hva
                rw [List.cons_append, List.cons_append, List.cons_append, List.cons_append,
                  utf8Valid_four b c1 c2 c3 _ hb h2 h3 h4, hva.1.1.1, hva.1.1.2, hva.1.2,
                  Bool.true_and, Bool.true_and, Bool.true_and]
                exact ih r (by simp at hlen; omega) hva.2 w
            · rw [utf8Valid_bad b rest hb h2 h3 h4] at hva; cases hva

theorem utf8Valid_append (v : List Nat) (hva : utf8Valid v = true) (w : List Nat) :
    utf8Valid (v ++ w) = utf8Valid w :=
  utf8Valid_append_aux v.length v (Nat.le_refl _) hva w

theorem cont1OK_range (b c1 : Nat) (h : cont1OK b c1 = true) :
    0x80 ≤ c1 ∧ c1 ≤ 0xBF := by
  unfold cont1OK isCont at h
  split_ifs at h <;> simp only [decide_eq_true_eq] at h <;> omega

theorem isPartialChar_length (p : List Nat) (hp : isPartialChar p = true) :
    p.length ≤ 3 := by
  match p with
  | [] => simp
  | [_] => simp
  | [_, _] => simp
  | [_, _, _] => simp
  | _ :: _ :: _ :: _ :: _ => simp [isPartialChar] at hp

theorem utf8Valid_partial_false (p : List Nat) (hp : isPartialChar p = true)
    (hne : p ≠ []) : utf8Valid p = false := by
  match p with
  | [] => exact absurd rfl hne
  | [b] =>
    rw [isPartialChar] at hp
    rw [decide_eq_true_eq] at hp
    rcases hp with h | h | h
    · exact utf8Valid_two_nil b (by omega) (by omega)
    · exact utf8Valid_three_nil b (by omega) (by omega) (by omega)
    · exact utf8Valid_four_nil b (by omega) (by omega) (by omega) (by omega)
  | [b, c1] =>
    rw [isPartialChar] at hp
    simp only [Bool.and_eq_true, Bool.or_eq_true, decide_eq_true_eq] at hp
    rcases hp.1 with h | h
    · exact utf8Valid_three_one b c1 (by omega) (by omega) (by omega)
    · exact utf8Valid_four_one b c1 (by omega) (by omega) (by omega) (by omega)
  | [b, c1, c2] =>
    rw [isPartialChar] at hp
    simp only [Bool.and_eq_true, decide_eq_true_eq] at hp
    exact utf8Valid_four_two b c1 c2 (by omega) (by omega) (by omega) (by omega)
  | _ :: _ :: _ :: _ :: _ => simp [isPartialChar] at hp

theorem isPartialChar_take (p : List Nat) (hp : isPartialChar p = true) (j : Nat) :
    isPartialChar (p.take j) = true := by
  match p, j with
  | _, 0 => rw [List.take_zero]; rfl
  | [], _ => rw [List.take_nil]; rfl
  | [b], j + 1 =>
    rw [List.take_succ_cons, List.take_nil]
    exact hp
  | [b, c1], 1 =>
    show isPartialChar [b] = true
    rw [isPartialChar] at hp
    rw [isPartialChar]
    simp only [Bool.and_eq_true, Bool.or_eq_true, decide_eq_true_eq] at hp
    rw [decide_eq_true_eq]
    rcases hp.1 with h | h
    · exact Or.inr (Or.inl h)
    · exact Or.inr (Or.inr h)
  | [b, c1], j + 2 =>
    rw [List.take_succ_cons, List.take_succ_cons, List.take_nil]
    exact hp
  | [b, c1, c2], 1 =>
    show isPartialChar [b] = true
    rw [isPartialChar] at hp
    rw [isPartialChar]
    simp only [Bool.and_eq_true, decide_eq_true_eq] at hp
    rw [decide_eq_true_eq]
    exact Or.inr (Or.inr hp.1.1)
  | [b, c1, c2], 2 =>
    show isPartialChar [b, c1] = true
    rw [isPartialChar] at hp
    rw [isPartialChar]
    simp only [Bool.and_eq_true, decide_eq_true_eq] at hp
    simp only [Bool.and_eq_true, Bool.or_eq_true, decide_eq_true_eq]
    exact ⟨Or.inr hp.1.1, hp.1.2⟩
  | [b, c1, c2], j + 3 =>
    rw [List.take_succ_cons, List.take_succ_cons, List.take_succ_cons, List.take_nil]
    exact hp
  | _ :: _ :: _ :: _ :: _, _ + 1 => simp [isPartialChar] at hp

end Anti2Api
namespace Anti2Api

theorem scanGo_hit (data : List Nat) (i fuel : Nat) (hle : ¬ i > min 4 data.length)
    (hb : 0xC0 ≤ data.getD (data.length - i) 0)
    (hlt : i < (if 0xF0 ≤ data.getD (data.length - i) 0 then 4
                else if 0xE0 ≤ data.getD (data.length - i) 0 then 3 else 2)) :
    scanGo data i (fuel + 1) = some (data.length - i) := by
  rw [scanGo.eq_2, if_neg hle, if_pos hb, if_pos hlt]

theorem scanGo_cont (data : List Nat) (i fuel : Nat) (hle : ¬ i > min 4 data.length)
    (hnb : ¬ 0xC0 ≤ data.getD (data.length - i) 0)
    (hc : 0x80 ≤ data.getD (data.length - i) 0) :
    scanGo data i (fuel + 1) = scanGo data (i + 1) fuel := by
  rw [scanGo.eq_2, if_neg hle, if_neg hnb, if_pos hc]

theorem getD_append_elem (v p : List Nat) (j : Nat) :
    (v ++ p).getD (v.length + j) 0 = p.getD j 0 := by
  rw [List.getD_append_right v p 0 (v.length + j) (Nat.le_add_right _ _),
    Nat.add_sub_cancel_left]

theorem scanIncomplete_eq (v p : List Nat) (hp : isPartialChar p = true)
    (hne : p ≠ []) : scanIncomplete (v ++ p) = some v.length := by
  match p with
  | [] => exact absurd rfl hne
  | [s] =>
    have hlen : (v ++ [s]).length = v.length + 1 := by simp
    have hs : (v ++ [s]).getD ((v ++ [s]).length - 1) 0 = s := by
      rw [hlen, Nat.add_sub_cancel]
      have := getD_append_elem v [s] 0
      rwa [Nat.add_zero] at this
    rw [isPartialChar, decide_eq_true_eq] at hp
    unfold scanIncomplete
    rw [scanGo_hit (v ++ [s]) 1 3 (by rw [hlen]; omega) (by rw [hs]; omega)
      (by rw [hs]; rcases hp with h | h | h
          · rw [if_neg (by omega), if_neg (by omega)]; omega
          · rw [if_neg (by omega), if_pos (by omega)]; omega
          · rw [if_pos (by omega)]; omega),
      hlen, Nat.add_sub_cancel]
  | [s, c1] =>
    have hlen : (v ++ [s, c1]).length = v.length + 2 := by simp
    have hs : (v ++ [s, c1]).getD ((v ++ [s, c1]).length - 2) 0 = s := by
      rw [hlen, Nat.add_sub_cancel]
      have := getD_append_elem v [s, c1] 0
      rwa [Nat.add_zero] at this
    have hc1 : (v ++ [s, c1]).getD ((v ++ [s, c1]).length - 1) 0 = c1 := by
      rw [hlen, show v.length + 2 - 1 = v.length + 1 by omega, getD_append_elem v [s, c1] 1]
      rfl
    rw [isPartialChar] at hp
    simp only [Bool.and_eq_true, Bool.or_eq_true, decide_eq_true_eq] at hp
    have hcr := cont1OK_range s c1 hp.2
    unfold scanIncomplete
    rw [scanGo_cont (v ++ [s, c1]) 1 3 (by rw [hlen]; omega) (by rw [hc1]; omega)
        (by rw [hc1]; omega),
      scanGo_hit (v ++ [s, c1]) 2 2 (by rw [hlen]; omega) (by rw [hs]; rcases hp.1 with h | h <;> omega)
        (by rw [hs]; rcases hp.1 with h | h
            · rw [if_neg (by omega), if_pos (by omega)]; omega
            · rw [if_pos (by omega)]; omega),
      hlen, Nat.add_sub_cancel]
  | [s, c1, c2] =>
    have hlen : (v ++ [s, c1, c2]).length = v.length + 3 := by simp
    have hs : (v ++ [s, c1, c2]).getD ((v ++ [s, c1, c2]).length - 3) 0 = s := by
      rw [hlen, Nat.add_sub_cancel]
      have := getD_append_elem v [s, c1, c2] 0
      rwa [Nat.add_zero] at this
    have hc1 : (v ++ [s, c1, c2]).getD ((v ++ [s, c1, c2]).length - 2) 0 = c1 := by
      rw [hlen, show v.length + 3 - 2 = v.length + 1 by omega,
        getD_append_elem v [s, c1, c2] 1]
      rfl
    have hc2 : (v ++ [s, c1, c2]).getD ((v ++ [s, c1, c2]).length - 1) 0 = c2 := by
      rw [hlen, show v.length + 3 - 1 = v.length + 2 by omega,
        getD_append_elem v [s, c1, c2] 2]
      rfl
    rw [isPartialChar] at hp
    simp only [Bool.and_eq_true, decide_eq_true_eq] at hp
    have hcr := cont1OK_range s c1 hp.1.2
    have hc2r : 0x80 ≤ c2 ∧ c2 ≤ 0xBF := by
      have := hp.2
      rw [isCont, decide_eq_true_eq] at this
      exact this
    unfold scanIncomplete
    rw [scanGo_cont (v ++ [s, c1, c2]) 1 3 (by rw [hlen]; omega) (by rw [hc2]; omega)
        (by rw [hc2]; omega),
      scanGo_cont (v ++ [s, c1, c2]) 2 2 (by rw [hlen]; omega) (by rw [hc1]; omega)
        (by rw [hc1]; omega),
      scanGo_hit (v ++ [s, c1, c2]) 3 1 (by rw [hlen]; omega) (by rw [hs]; omega)
        (by rw [hs, if_pos (by omega : 0xF0 ≤ s)]; omega),
      hlen, Nat.add_sub_cancel]
  | _ :: _ :: _ :: _ :: _ => simp [isPartialChar] at hp

theorem extractValidUTF8_eq (v p : List Nat) (hv : utf8Valid v = true)
    (hp : isPartialChar p = true) : extractValidUTF8 (v ++ p) = (v, p) := by
  by_cases hpe : p = []
  · subst hpe
    rw [List.append_nil]
    match v with
    | [] => rfl
    | b :: rest =>
      unfold extractValidUTF8
      rw [if_neg (by simp), if_pos hv]
  · have hval : utf8Valid (v ++ p) = false := by
      rw [utf8Valid_append v hv p]
      exact utf8Valid_partial_false p hp hpe
    unfold extractValidUTF8
    rw [if_neg (by simp [hpe, List.length_eq_zero]), if_neg (by rw [hval]; simp),
      scanIncomplete_eq v p hp hpe]
    show (List.take v.length (v ++ p), List.drop v.length (v ++ p)) = (v, p)
    rw [List.take_left, List.drop_left]

end Anti2Api
namespace Anti2Api

/-- C3 (amended): whenever the carry-over buffer plus the newly fed bytes
decomposes as a valid UTF-8 sequence followed by at most an incomplete
single-character front, one `WriteContent` call (the identical code serves
`WriteReasoning`) emits exactly that valid front (or nothing when it is
empty), every emitted delta is valid UTF-8, the retained residual is that
incomplete front of at most 3 bytes, and the emitted part is the longest
valid front of the combined bytes.  Since the new buffer `p` again
satisfies the decomposition invariant, this covers any split of such a
byte sequence across calls. -/
theorem utf8_carry_over_safe (buffer bytes v p : List Nat)
    (hdec : buffer ++ bytes = v ++ p)
    (hv : utf8Valid v = true) (hp : isPartialChar p = true) :
    writeContentStep buffer bytes = ((if v = [] then none else some v), p) ∧
    (∀ d, (writeContentStep buffer bytes).1 = some d → utf8Valid d = true) ∧
    p.length ≤ 3 ∧
    (∀ k, k ≤ (buffer ++ bytes).length → utf8Valid ((buffer ++ bytes).take k) = true →
      k ≤ v.length) := by
  have hext : extractValidUTF8 (buffer ++ bytes) = (v, p) := by
    rw [hdec]
    exact extractValidUTF8_eq v p hv hp
  have hstep : writeContentStep buffer bytes = ((if v = [] then none else some v), p) := by
    unfold writeContentStep
    rw [hext]
  refine ⟨hstep, ?_, isPartialChar_length p hp, ?_⟩
  · intro d hd
    rw [hstep] at hd
    by_cases hve : v = []
    · rw [if_pos hve] at hd
      cases hd
    · rw [if_neg hve] at hd
      simp only at hd
      rw [← Option.some.inj hd]
      exact hv
  · intro k hk hval
    by_contra hgt
    push_neg at hgt
    rw [hdec] at hval hk
    have hj : k = v.length + (k - v.length) := by omega
    rw [hj, List.take_append, utf8Valid_append v hv] at hval
    have hne2 : p.take (k - v.length) ≠ [] := by
      intro hcon
      have hlt := List.length_take (k - v.length) p
      rw [hcon] at hlt
      rw [List.length_append] at hk
      simp only [List.length_nil] at hlt
      omega
    rw [utf8Valid_partial_false _ (isPartialChar_take p hp _) hne2] at hval
    cases hval

/-- C3 witness: feeding an ASCII byte followed by the first byte of a
3-byte character emits the ASCII byte and retains the start byte. -/
theorem utf8_carry_over_safe_witness :
    writeContentStep [] [0x61, 0xE4] = (some [0x61], [0xE4]) ∧
    utf8Valid [0x61] = true ∧ ([0xE4] : List Nat).length ≤ 3 :=
  ⟨(utf8_carry_over_safe [] [0x61, 0xE4] [0x61] [0xE4] rfl (by decide) (by decide)).1,
   by decide,
   (utf8_carry_over_safe [] [0x61, 0xE4] [0x61] [0xE4] rfl (by decide) (by decide)).2.2.1⟩

/-- C3 counterexample: fed a stray continuation byte followed by an
incomplete 3-byte character, the writer emits the invalid byte 0x80 as a
delta (the backward scan returns everything before the incomplete start
byte without validating it), although the longest valid front of the input
is empty; and an all-continuation input leaves a 4-byte residual,
exceeding the claimed 3-byte bound. -/
theorem utf8_carry_over_counterexample :
    writeContentStep [] [0x80, 0xE4, 0xB8] = (some [0x80], [0xE4, 0xB8]) ∧
    utf8Valid [0x80] = false ∧
    utf8Valid (([0x80, 0xE4, 0xB8] : List Nat).take 0) = true ∧
    (writeContentStep [] [0x80, 0x80, 0x80, 0x80]).2.length = 4 := by
  refine ⟨?_, by decide, by decide, ?_⟩ <;> decide

/-- C4: retained bytes are indeed flushed verbatim at `WriteFinish` (first
conjunct: an incomplete character left in the buffer is emitted before the
finish event), but the claimed concatenation identity fails: feeding
`0x61 0x80`, the recovery loop of `extractValidUTF8` strips the invalid
byte `0x80` and returns an empty remainder, so the byte is dropped mid-call
— never retained, never flushed — and the concatenation of all content
deltas is `0x61`, not the fed `0x61 0x80`. -/
theorem flush_concatenation_bug :
    (runWriter {} [.content [0xE4], .finish "stop"]).2
      = [.role, .content [0xE4], .finish "stop", .done] ∧
    contentDeltaBytes (runWriter {} [.content [0x61, 0x80], .finish "stop"]).2 = [0x61] ∧
    fedContentBytes [.content [0x61, 0x80], .finish "stop"] = [0x61, 0x80] := by
  refine ⟨?_, ?_, ?_⟩ <;> decide

end Anti2Api
namespace Anti2Api

/-! ## Stream-writer role lemmas -/

theorem writeRoleLocked_sent (st : WState) (h : st.sentRole = true) :
    writeRoleLocked st = (st, []) := by
  unfold writeRoleLocked
  rw [if_pos h]

theorem countRole_eq_zero (outs : List WOut) (h : WOut.role ∉ outs) :
    countRole outs = 0 := by
  unfold countRole
  rw [List.countP_eq_zero]
  intro o ho
  simp only [decide_eq_true_eq]
  intro hcon
  exact h (hcon ▸ ho)

theorem stepOp_sent_no_role (st : WState) (h : st.sentRole = true) (op : WOp) :
    (stepOp st op).1.sentRole = true ∧ countRole (stepOp st op).2 = 0 := by
  cases op with
  | content bytes =>
    rcases hE : extractValidUTF8 (st.contentBuffer ++ bytes) with ⟨valid, remaining⟩
    refine ⟨by simp [stepOp, writeRoleLocked_sent st h, hE, h], ?_⟩
    simp only [stepOp, writeRoleLocked_sent st h, hE]
    apply countRole_eq_zero
    split_ifs <;> simp
  | reasoning bytes =>
    rcases hE : extractValidUTF8 (st.reasoningBuffer ++ bytes) with ⟨valid, remaining⟩
    refine ⟨by simp [stepOp, writeRoleLocked_sent st h, hE, h], ?_⟩
    simp only [stepOp, writeRoleLocked_sent st h, hE]
    apply countRole_eq_zero
    split_ifs <;> simp
  | toolCalls tcs =>
    refine ⟨by simp [stepOp, writeRoleLocked_sent st h, h], ?_⟩
    simp only [stepOp, writeRoleLocked_sent st h]
    apply countRole_eq_zero
    simp
  | heartbeat =>
    refine ⟨by simp [stepOp, writeRoleLocked_sent st h, h], ?_⟩
    simp only [stepOp, writeRoleLocked_sent st h]
    apply countRole_eq_zero
    simp
  | finish reason =>
    refine ⟨by simp [stepOp, flushLocked, h], ?_⟩
    simp only [stepOp, flushLocked]
    apply countRole_eq_zero
    intro hmem
    rcases List.mem_append.mp hmem with h1 | h1
    · rcases List.mem_append.mp h1 with h2 | h2 <;> revert h2 <;> split_ifs <;> simp
    · simp at h1

theorem runWriter_sent_no_role (ops : List WOp) : ∀ st : WState, st.sentRole = true →
    countRole (runWriter st ops).2 = 0 := by
  induction ops with
  | nil => intro st _; rfl
  | cons op ops ih =>
    intro st h
    have h1 := stepOp_sent_no_role st h op
    rcases hS : stepOp st op with ⟨st1, outs⟩
    rw [hS] at h1
    rcases hR : runWriter st1 ops with ⟨st2, outs2⟩
    have h2 := ih st1 h1.1
    rw [hR] at h2
    show countRole (runWriter st (op :: ops)).2 = 0
    rw [runWriter.eq_2]
    simp only [hS, hR]
    unfold countRole at h1 h2 ⊢
    rw [List.countP_append, h1.2, h2]

/-! ## C7: one-time role announcement -/

/-- C7: for every non-empty sequence of delta-producing writer calls
(content, reasoning, tool calls, heartbeat), the chunk stream starts with
the single role-announcement chunk, and that chunk is emitted exactly once
over the writer's lifetime. -/
theorem role_announced_once (ops : List WOp) (hne : ops ≠ [])
    (hw : ∀ o ∈ ops, isWriteOp o = true) :
    ((runWriter {} ops).2).head? = some WOut.role ∧
    countRole (runWriter {} ops).2 = 1 := by
  obtain ⟨op, rest, rfl⟩ := List.exists_cons_of_ne_nil hne
  have hwop := hw op (List.mem_cons_self op rest)
  have hstep : ∃ st1 tail, stepOp {} op = (st1, WOut.role :: tail) ∧
      st1.sentRole = true ∧ WOut.role ∉ tail := by
    cases op with
    | content bytes =>
      rcases hE : extractValidUTF8 bytes with ⟨valid, remaining⟩
      refine ⟨⟨true, remaining, []⟩,
        (if valid = [] then [] else [WOut.content valid]), ?_, rfl, ?_⟩
      · simp [stepOp, writeRoleLocked, hE]
      · split_ifs <;> simp
    | reasoning bytes =>
      rcases hE : extractValidUTF8 bytes with ⟨valid, remaining⟩
      refine ⟨⟨true, [], remaining⟩,
        (if valid = [] then [] else [WOut.reasoning valid]), ?_, rfl, ?_⟩
      · simp [stepOp, writeRoleLocked, hE]
      · split_ifs <;> simp
    | toolCalls tcs =>
      exact ⟨⟨true, [], []⟩, [WOut.toolCalls tcs], by simp [stepOp, writeRoleLocked],
        rfl, by simp⟩
    | heartbeat =>
      exact ⟨⟨true, [], []⟩, [WOut.empty], by simp [stepOp, writeRoleLocked], rfl, by simp⟩
    | finish reason => cases hwop
  obtain ⟨st1, tail, hS, hsent, htail⟩ := hstep
  rcases hR : runWriter st1 rest with ⟨st2, outs2⟩
  have h2 := runWriter_sent_no_role rest st1 hsent
  rw [hR] at h2
  constructor
  · rw [runWriter.eq_2]
    simp [hS, hR]
  · rw [runWriter.eq_2]
    simp only [hS, hR]
    unfold countRole at h2 ⊢
    rw [List.countP_append, List.countP_cons]
    have ht0 : List.countP (fun o => decide (o = WOut.role)) tail = 0 :=
      countRole_eq_zero tail htail
    simp [ht0, h2]

end Anti2Api
namespace Anti2Api

/-- C7 witness: a single heartbeat call announces the role first and once. -/
theorem role_announced_once_witness :
    ((runWriter {} [WOp.heartbeat]).2).head? = some WOut.role ∧
    countRole (runWriter {} [WOp.heartbeat]).2 = 1 :=
  role_announced_once [WOp.heartbeat] (by decide) (by decide)

/-! ## C9: credential-by-identity dispatch -/

/-- C9: the identity segment is looked up as an account email exactly when
it contains `@` and as a project id otherwise; if that lookup fails the
handler answers with the not-found outcome (no upstream call is
represented by that outcome), and otherwise it proceeds upstream with the
found token. -/
theorem credential_identity_dispatch (store : AccountStore) (credential : String)
    (req : OpenAIChatRequest) :
    (credential.data.contains '@' = true →
      (store.byEmail credential = none →
        HandleChatCompletionsWithCredential store credential req
          = .notFound ("Credential not found: " ++ credential)) ∧
      (∀ a, store.byEmail credential = some a →
        HandleChatCompletionsWithCredential store credential req
          = .upstream a req.stream)) ∧
    (credential.data.contains '@' = false →
      (store.byProjectID credential = none →
        HandleChatCompletionsWithCredential store credential req
          = .notFound ("Credential not found: " ++ credential)) ∧
      (∀ a, store.byProjectID credential = some a →
        HandleChatCompletionsWithCredential store credential req
          = .upstream a req.stream)) := by
  constructor
  · intro hc
    constructor
    · intro hnone
      unfold HandleChatCompletionsWithCredential
      rw [if_pos hc, hnone]
    · intro a ha
      unfold HandleChatCompletionsWithCredential
      rw [if_pos hc, ha]
  · intro hc
    constructor
    · intro hnone
      unfold HandleChatCompletionsWithCredential
      rw [if_neg (by rw [hc]; simp), hnone]
    · intro a ha
      unfold HandleChatCompletionsWithCredential
      rw [if_neg (by rw [hc]; simp), ha]

/-- C9 witness: an identity with `@` resolves by email; an unknown
project-id identity without `@` yields the not-found outcome. -/
theorem credential_identity_dispatch_witness :
    ("a@b.c".data.contains '@' = true ∧
      HandleChatCompletionsWithCredential storeDemo "a@b.c" { model := "m", messages := [] }
        = .upstream { email := "a@b.c" } false) ∧
    ("nope".data.contains '@' = false ∧
      HandleChatCompletionsWithCredential storeDemo "nope" { model := "m", messages := [] }
        = .notFound "Credential not found: nope") :=
  ⟨⟨by decide,
    ((credential_identity_dispatch storeDemo "a@b.c" { model := "m", messages := [] }).1
      (by decide)).2 { email := "a@b.c" } (by decide)⟩,
   ⟨by decide,
    ((credential_identity_dispatch storeDemo "nope" { model := "m", messages := [] }).2
      (by decide)).1 (by decide)⟩⟩

/-! ## C10: first-candidate access -/

/-- C10: ConvertToOpenAIResponse is defined exactly on upstream responses
with a non-empty candidate list; with zero candidates the unconditional
`Candidates[0]` access is out of bounds, modelled as the `none` result. -/
theorem response_requires_candidate (gen : GenEnv) (resp : AntigravityResponse)
    (model : String) :
    (ConvertToOpenAIResponse gen resp model).isSome = true
      ↔ resp.response.candidates ≠ [] := by
  cases hc : resp.response.candidates with
  | nil => simp [ConvertToOpenAIResponse, hc]
  | cons c cs =>
    rcases hF : respFold gen.generateToolCallID c.content.parts "" "" [] [] 0
      with ⟨content, thinking, toolCalls, imgs⟩
    simp [ConvertToOpenAIResponse, hc, hF]

end Anti2Api
namespace Anti2Api

/-! ## Stream-processor lemmas -/

theorem processParts_spec (gen : Nat → String) (ps : List StreamPart) :
    ∀ cs pend n, ∃ extra pend2 n2,
      processParts gen ps cs pend n = (cs ++ extra, pend ++ pend2, n2) ∧
      (∀ c ∈ extra, isToolCallsChunk c = false) ∧
      ((pend2 = []) ↔ ps.any partIsFC = false) := by
  induction ps with
  | nil =>
    intro cs pend n
    exact ⟨[], [], n, by simp [processParts], by simp, by simp⟩
  | cons p ps ih =>
    intro cs pend n
    by_cases hth : p.thought
    · obtain ⟨extra, pend2, n2, heq, hno, hiff⟩ := ih (cs ++ [.thinking p.text]) pend n
      refine ⟨.thinking p.text :: extra, pend2, n2, ?_, ?_, ?_⟩
      · rw [processParts, if_pos hth, heq]
        simp
      · intro c hc
        rcases List.mem_cons.mp hc with rfl | hc
        · rfl
        · exact hno c hc
      · rw [hiff, List.any_cons]
        have : partIsFC p = false := by simp [partIsFC, hth]
        rw [this, Bool.false_or]
    · by_cases htx : p.text ≠ ""
      · obtain ⟨extra, pend2, n2, heq, hno, hiff⟩ := ih (cs ++ [.text p.text]) pend n
        refine ⟨.text p.text :: extra, pend2, n2, ?_, ?_, ?_⟩
        · rw [processParts, if_neg hth, if_pos htx, heq]
          simp
        · intro c hc
          rcases List.mem_cons.mp hc with rfl | hc
          · rfl
          · exact hno c hc
        · rw [hiff, List.any_cons]
          have hf : partIsFC p = false := by
            simp only [partIsFC, decide_eq_false_iff_not]
            rintro ⟨-, h2, -⟩
            exact htx h2
          rw [hf, Bool.false_or]
      · cases hfc : p.functionCall with
        | some fc =>
          obtain ⟨extra, pend2, n2, heq, hno, hiff⟩ :=
            ih cs (pend ++ [mkStreamToolCall (if fc.id = "" then gen n else fc.id) fc])
              (if fc.id = "" then n + 1 else n)
          refine ⟨extra, mkStreamToolCall (if fc.id = "" then gen n else fc.id) fc :: pend2,
            n2, ?_, hno, ?_⟩
          · rw [processParts, if_neg hth, if_neg htx, hfc]
            show processParts gen ps cs
                (pend ++ [mkStreamToolCall (if fc.id = "" then gen n else fc.id) fc])
                (if fc.id = "" then n + 1 else n) = _
            rw [heq]
            simp
          · rw [List.any_cons]
            have hf : partIsFC p = true := by
              simp only [partIsFC, decide_eq_true_eq]
              refine ⟨by simpa using hth, by simpa using htx, by simp [hfc]⟩
            rw [hf, Bool.true_or]
            simp
        | none =>
          obtain ⟨extra, pend2, n2, heq, hno, hiff⟩ := ih cs pend n
          refine ⟨extra, pend2, n2, ?_, hno, ?_⟩
          · rw [processParts, if_neg hth, if_neg htx, hfc]
            show processParts gen ps cs pend n = _
            exact heq
          · rw [hiff, List.any_cons]
            have hf : partIsFC p = false := by simp [partIsFC, hfc]
            rw [hf, Bool.false_or]

theorem runLines_no_finish (gen : Nat → String) (lines : List Line) :
    ∀ st : ProcState,
      (∀ l ∈ lines, lineReportsFinish l = false ∧ lineIsDone l = false) →
      ∃ cs st2,
        runLines gen st lines = (cs, st2) ∧
        (∀ c ∈ cs, isToolCallsChunk c = false) ∧
        ((st2.pending = []) ↔ (st.pending = [] ∧ ∀ l ∈ lines, lineHasFC l = false)) := by
  induction lines with
  | nil =>
    intro st _
    exact ⟨[], st, rfl, by simp, by simp⟩
  | cons l ls ih =>
    intro st hl
    have hlhead := hl l (List.mem_cons_self l ls)
    have hltail : ∀ x ∈ ls, lineReportsFinish x = false ∧ lineIsDone x = false :=
      fun x hx => hl x (List.mem_cons_of_mem l hx)
    cases l with
    | notData =>
      obtain ⟨cs, st2, heq, hno, hiff⟩ := ih st hltail
      refine ⟨cs, st2, ?_, hno, ?_⟩
      · rw [runLines, stepLine]
        simp [heq]
      · rw [hiff]
        simp [lineHasFC]
    | malformed =>
      obtain ⟨cs, st2, heq, hno, hiff⟩ := ih st hltail
      refine ⟨cs, st2, ?_, hno, ?_⟩
      · rw [runLines, stepLine]
        simp [heq]
      · rw [hiff]
        simp [lineHasFC]
    | done => exact absurd hlhead.2 (by simp [lineIsDone])
    | event d =>
      cases hc : d.candidates with
      | nil =>
        have hstep : stepLine gen st (.event d)
            = ({ st with usage := stepUsage st d }, [], false) := by
          simp only [stepLine, hc]
        obtain ⟨cs, st2, heq, hno, hiff⟩ :=
          ih { st with usage := stepUsage st d } hltail
        refine ⟨cs, st2, ?_, hno, ?_⟩
        · rw [runLines, hstep]
          simp [heq]
        · rw [hiff]
          simp [lineHasFC, hc]
      | cons cand rest =>
        have hfin : cand.finishReason = "" := by
          have := hlhead.1
          rw [lineReportsFinish, hc] at this
          simpa using this
        obtain ⟨extra, pend2, n2, hpp, hnoex, hiffpp⟩ :=
          processParts_spec gen cand.parts [] st.pending st.ctr
        have hstep : stepLine gen st (.event d)
            = ({ st with usage := stepUsage st d, pending := st.pending ++ pend2, ctr := n2 }, extra, false) := by
          simp only [stepLine, hc, hpp]
          rw [if_neg (by simp [hfin])]
          simp
        obtain ⟨cs, st2, heq, hno, hiff⟩ :=
          ih { st with usage := stepUsage st d, pending := st.pending ++ pend2, ctr := n2 }
            hltail
        refine ⟨extra ++ cs, st2, ?_, ?_, ?_⟩
        · rw [runLines, hstep]
          simp [heq]
        · intro c hcm
          rcases List.mem_append.mp hcm with h1 | h1
          · exact hnoex c h1
          · exact hno c h1
        · rw [hiff]
          simp only [List.mem_cons, forall_eq_or_imp, lineHasFC, hc]
          constructor
          · rintro ⟨hpe, hrest⟩
            rcases List.append_eq_nil.mp hpe with ⟨hp1, hp2⟩
            exact ⟨hp1, hiffpp.mp hp2, hrest⟩
          · rintro ⟨hp1, hfc, hrest⟩
            exact ⟨by rw [hp1, hiffpp.mpr hfc]; rfl, hrest⟩

end Anti2Api
namespace Anti2Api

/-- C5 (amended): in ProcessStreamResponse, an event whose first candidate
has no finish reason only accumulates — its function-call parts extend the
pending list and none of its chunks is a tool_calls chunk; an event whose
first candidate reports a non-empty finish reason flushes the whole
accumulated list, when non-empty, as exactly one tool_calls chunk after
that event's text chunks, and clears the pending list; calls still pending
when the lines run out are flushed as one final tool_calls chunk;
consequently, on a stream where no event reports a finish reason, exactly
one tool_calls chunk is emitted, as the last chunk, precisely when some
event carried a function-call part; and malformed or unrecognized lines
are skipped without emitting chunks, erroring, or breaking the loop. -/
theorem tool_call_single_flush (gen : Nat → String) :
    (∀ st : ProcState, stepLine gen st .malformed = (st, [], false)
        ∧ stepLine gen st .notData = (st, [], false)) ∧
    (∀ (st : ProcState) (d : StreamData), lineReportsFinish (.event d) = false →
      ∃ cs pend2 n2,
        stepLine gen st (.event d) = (⟨stepUsage st d, st.pending ++ pend2, n2⟩, cs, false)
        ∧ (∀ c ∈ cs, isToolCallsChunk c = false)) ∧
    (∀ (st : ProcState) (d : StreamData), lineReportsFinish (.event d) = true →
      ∃ cs pend2 n2,
        (∀ c ∈ cs, isToolCallsChunk c = false)
        ∧ (st.pending ++ pend2 ≠ [] →
            stepLine gen st (.event d)
              = (⟨stepUsage st d, [], n2⟩, cs ++ [.toolCalls (st.pending ++ pend2)], false))
        ∧ (st.pending ++ pend2 = [] →
            stepLine gen st (.event d) = (⟨stepUsage st d, [], n2⟩, cs, false))) ∧
    (∀ (lines : List Line) (cs : List SChunk) (st2 : ProcState),
      runLines gen {} lines = (cs, st2) →
      (st2.pending ≠ [] →
          (ProcessStreamResponse gen lines).1 = cs ++ [.toolCalls st2.pending])
      ∧ (st2.pending = [] → (ProcessStreamResponse gen lines).1 = cs)) ∧
    (∀ lines : List Line,
      (∀ l ∈ lines, lineReportsFinish l = false ∧ lineIsDone l = false) →
      (∀ c ∈ ((ProcessStreamResponse gen lines).1).dropLast, isToolCallsChunk c = false)
      ∧ ((ProcessStreamResponse gen lines).1.countP isToolCallsChunk
          = if lines.any lineHasFC then 1 else 0)) := by
  refine ⟨fun st => ⟨rfl, rfl⟩, ?_, ?_, ?_, ?_⟩
  · rintro ⟨u0, p0, c0⟩ d hfin
    cases hc : d.candidates with
    | nil =>
      refine ⟨[], [], c0, ?_, by simp⟩
      simp [stepLine, hc]
    | cons cand rest =>
      have hfr : cand.finishReason = "" := by
        rw [lineReportsFinish, hc] at hfin
        simpa using hfin
      obtain ⟨extra, pend2, n2, hpp, hnoex, -⟩ :=
        processParts_spec gen cand.parts [] p0 c0
      refine ⟨extra, pend2, n2, ?_, hnoex⟩
      simp only [stepLine, hc, hpp]
      rw [if_neg (by simp [hfr])]
      simp
  · rintro ⟨u0, p0, c0⟩ d hfin
    cases hc : d.candidates with
    | nil =>
      rw [lineReportsFinish, hc] at hfin
      simp at hfin
    | cons cand rest =>
      have hfr : cand.finishReason ≠ "" := by
        rw [lineReportsFinish, hc] at hfin
        simpa using hfin
      obtain ⟨extra, pend2, n2, hpp, hnoex, -⟩ :=
        processParts_spec gen cand.parts [] p0 c0
      refine ⟨extra, pend2, n2, hnoex, ?_, ?_⟩
      · intro hne
        simp only [stepLine, hc, hpp]
        rw [if_pos ⟨hfr, hne⟩]
        simp
      · intro hemp
        have hemp2 : p0 ++ pend2 = [] := hemp
        rcases List.append_eq_nil.mp hemp2 with ⟨hp1, hp2⟩
        subst hp1
        subst hp2
        simp only [stepLine, hc, hpp]
        rw [if_neg (by simp)]
        simp
  · intro lines cs st2 hrun
    refine ⟨fun hne => ?_, fun hemp => ?_⟩
    · unfold ProcessStreamResponse
      rw [hrun]
      simp [hne]
    · unfold ProcessStreamResponse
      rw [hrun]
      simp [hemp]
  · intro lines h
    obtain ⟨cs, st2, heq, hno, hiff⟩ := runLines_no_finish gen lines {} h
    have hmain : ProcessStreamResponse gen lines
        = (cs ++ (if st2.pending ≠ [] then [.toolCalls st2.pending] else []), st2.usage) := by
      unfold ProcessStreamResponse
      rw [heq]
    have hpend : (st2.pending = []) ↔ ∀ l ∈ lines, lineHasFC l = false := by
      rw [hiff]
      simp
    refine ⟨?_, ?_⟩
    · intro c hcm
      rw [hmain] at hcm
      simp only at hcm
      by_cases hp : st2.pending = []
      · rw [if_neg (by simp [hp])] at hcm
        exact hno c (List.dropLast_subset _ (by simpa using hcm))
      · rw [if_pos hp] at hcm
        rw [List.dropLast_concat] at hcm
        exact hno c hcm
    · rw [hmain]
      simp only
      rw [List.countP_append]
      have hcs : cs.countP isToolCallsChunk = 0 := by
        rw [List.countP_eq_zero]
        intro c hcm
        simp [hno c hcm]
      rw [hcs]
      by_cases hp : st2.pending = []
      · rw [if_neg (by simp [hp])]
        have : lines.any lineHasFC = false := by
          rw [List.any_eq_false]
          intro l hl
          simp [hpend.mp hp l hl]
        rw [this]
        simp
      · rw [if_pos hp]
        have : lines.any lineHasFC = true := by
          rw [List.any_eq_true]
          by_contra hcon
          push_neg at hcon
          exact hp (hpend.mpr fun l hl => by
            have := hcon l hl
            simpa using this)
        rw [this]
        simp [isToolCallsChunk]

end Anti2Api
namespace Anti2Api

/-- C5 witness: at concrete inputs, a finish-reason event clears a
non-empty pending list; a lone accumulated call is flushed once at stream
end; and a finish-free stream with a skipped malformed line yields its
single tool_calls chunk as the last chunk. -/
theorem tool_call_single_flush_witness :
    (stepLine genDemo ⟨none, [tcDemo], 0⟩ (lineFCFin fcDemoA)).1.pending = [] ∧
    (ProcessStreamResponse genDemo [lineFC fcDemoA]).1
      = [.toolCalls [mkStreamToolCall "1" fcDemoA]] ∧
    (∀ c ∈ ((ProcessStreamResponse genDemo [lineFC fcDemoA, .malformed, lineText]).1).dropLast,
      isToolCallsChunk c = false) ∧
    ((ProcessStreamResponse genDemo [lineFC fcDemoA, .malformed, lineText]).1.countP
        isToolCallsChunk
      = if [lineFC fcDemoA, Line.malformed, lineText].any lineHasFC then 1 else 0) := by
  refine ⟨?_, ?_, ?_, ?_⟩
  · obtain ⟨cs, pend2, n2, -, hne, -⟩ :=
      (tool_call_single_flush genDemo).2.2.1 ⟨none, [tcDemo], 0⟩ sdFin (by decide)
    have hstep := hne (by simp)
    have hl : lineFCFin fcDemoA = Line.event sdFin := rfl
    rw [hl, hstep]
  · have h4 := (tool_call_single_flush genDemo).2.2.2.1 [lineFC fcDemoA] []
      ⟨none, [mkStreamToolCall "1" fcDemoA], 0⟩ (by decide)
    have h5 := h4.1 (by decide)
    simpa using h5
  · exact ((tool_call_single_flush genDemo).2.2.2.2
      [lineFC fcDemoA, .malformed, lineText] (by decide)).1
  · exact ((tool_call_single_flush genDemo).2.2.2.2
      [lineFC fcDemoA, .malformed, lineText] (by decide)).2

/-- C5 counterexample: two successive events that each carry a
function-call part and report a finish reason make the loop flush twice —
two tool_calls chunks, not the claimed single chunk at the first
finish-reason event. -/
theorem tool_call_single_flush_counterexample :
    lineReportsFinish (lineFCFin fcDemoA) = true ∧
    ((ProcessStreamResponse genDemo [lineFCFin fcDemoA, lineFCFin fcDemoB]).1.countP
        isToolCallsChunk) = 2 := by
  constructor
  · decide
  · decide

/-! ## C6: bypass heartbeat ordering -/

/-- C6: the bypass handler closes the `done` channel but never joins the
heartbeat goroutine before writing the burst and finish events, so an
interleaving is reachable in which a heartbeat chunk is written to the sink
after the finish event — the goroutine's `select` may pick a ready ticker
even after `done` is closed, and nothing orders its write before the
burst.  This contradicts the claimed invariant (heartbeats strictly
precede the burst and never follow the finish) and the spec's "block until
it has fully stopped". -/
theorem bypass_heartbeat_after_finish :
    ∃ s : BState, BypassReach {} s
      ∧ s.wire = [BEv.hb, BEv.burst, BEv.finish, BEv.hb]
      ∧ s.hbStopped = false := by
  refine ⟨⟨4, true, false, [BEv.hb, BEv.burst, BEv.finish, BEv.hb]⟩, ?_, rfl, rfl⟩
  have h1 : BypassStep ({} : BState) ⟨1, false, false, [BEv.hb]⟩ :=
    BypassStep.firstHeartbeat {} rfl
  have h2 : BypassStep (⟨1, false, false, [BEv.hb]⟩ : BState)
      ⟨2, true, false, [BEv.hb]⟩ :=
    BypassStep.closeDone ⟨1, false, false, [BEv.hb]⟩ rfl
  have h3 : BypassStep (⟨2, true, false, [BEv.hb]⟩ : BState)
      ⟨3, true, false, [BEv.hb, BEv.burst]⟩ :=
    BypassStep.emitBurst ⟨2, true, false, [BEv.hb]⟩ rfl
  have h4 : BypassStep (⟨3, true, false, [BEv.hb, BEv.burst]⟩ : BState)
      ⟨4, true, false, [BEv.hb, BEv.burst, BEv.finish]⟩ :=
    BypassStep.emitFinish ⟨3, true, false, [BEv.hb, BEv.burst]⟩ rfl
  have h5 : BypassStep (⟨4, true, false, [BEv.hb, BEv.burst, BEv.finish]⟩ : BState)
      ⟨4, true, false, [BEv.hb, BEv.burst, BEv.finish, BEv.hb]⟩ :=
    BypassStep.hbTick ⟨4, true, false, [BEv.hb, BEv.burst, BEv.finish]⟩ rfl (by decide)
  exact Relation.ReflTransGen.head h1 (Relation.ReflTransGen.head h2
    (Relation.ReflTransGen.head h3 (Relation.ReflTransGen.head h4
      (Relation.ReflTransGen.single h5))))

end Anti2Api
